import Mathlib

/-!
Verification of the recipe normalization pipeline of the recipe-app
repository: shallow embedding in Lean 4 of the parsing / normalization
functions of backend/services/parser.js (namespace `Parser`),
backend/services/recipeTextParser.js (namespace `TextParser`) and the
unit-conversion section of frontend/scripts/utils.js (namespace `Utils`),
together with theorems settling the frozen claims about them.

JavaScript strings are modelled as Lean `String`; JS numbers as `ℚ`
(exact arithmetic; the source computations are small and exact on the
cited inputs); JS object literals used as finite maps are modelled as
association lists; `throw` is modelled with `Except`; absent values with
`Option`.  `toLowerCase`/`toUpperCase`/`trim` are modelled on the ASCII
range, which covers every character the source tables and the claims use.
-/

namespace RecipeApp

/-- The ASCII whitespace characters recognized by JS `trim` and `\s`
(space, tab, line feed, vertical tab, form feed, carriage return). -/
def jsWs (c : Char) : Bool :=
  c = ' ' || c = '\t' || c = '\n' || c = '\x0b' || c = '\x0c' || c = '\r'

def isDigitCh (c : Char) : Bool := '0' ≤ c && c ≤ '9'

def isAlphaCh (c : Char) : Bool :=
  ('a' ≤ c && c ≤ 'z') || ('A' ≤ c && c ≤ 'Z')

/-- JS `String.prototype.trim` (ASCII whitespace) on a character list. -/
def trimChars (cs : List Char) : List Char :=
  ((cs.dropWhile jsWs).reverse.dropWhile jsWs).reverse

def jsTrim (s : String) : String := String.mk (trimChars s.data)

/-- JS `String.prototype.toLowerCase`, ASCII range. -/
def jsLower (s : String) : String := String.mk (s.data.map Char.toLower)

/-- JS `s.toLowerCase().trim()`, the normalization used by the unit and
category tables. -/
def lowerTrim (s : String) : String := jsTrim (jsLower s)

/-- JS `text.split(n)` on a single separator character. -/
def splitCh (sep : Char) : List Char → List (List Char)
  | [] => [[]]
  | c :: cs =>
    let r := splitCh sep cs
    if c = sep then [] :: r
    else match r with
      | [] => [[c]]
      | g :: gs => (c :: g) :: gs

def jsSplit (s : String) (sep : Char) : List String :=
  (splitCh sep s.data).map String.mk

/-- Lookup in a JS object literal used as a finite string map. -/
def alookup (m : List (String × String)) (k : String) : Option String :=
  (m.find? (fun p => p.1 == k)).map (·.2)

/-- Does the string start with the given prefix (exact characters)? -/
def startsWithChars : List Char → List Char → Bool
  | _, [] => true
  | [], _ :: _ => false
  | c :: cs, p :: ps => c = p && startsWithChars cs ps

def jsStartsWith (s p : String) : Bool := startsWithChars s.data p.data

end RecipeApp

namespace Parser
/-!  backend/services/parser.js — structured-source pipeline.  -/

open RecipeApp

/-- parser.js `normalizeUnit`: the unit synonym table of the
structured-source pipeline (object literal in the source). -/
def unitMap : List (String × String) :=
  [("cup", "cups"), ("cups", "cups"),
   ("tablespoon", "tbsp"), ("tablespoons", "tbsp"),
   ("teaspoon", "tsp"), ("teaspoons", "tsp"),
   ("fluid ounce", "fl oz"), ("fluid ounces", "fl oz"),
   ("milliliter", "ml"), ("milliliters", "ml"),
   ("millilitre", "ml"), ("millilitres", "ml"),
   ("gram", "g"), ("grams", "g"),
   ("kilogram", "kg"), ("kilograms", "kg"),
   ("ounce", "oz"), ("ounces", "oz"),
   ("pound", "lbs"), ("pounds", "lbs"),
   ("lb", "lbs")]

/-- parser.js `normalizeUnit(unit)`: falsy guard, lowercase + trim, table
lookup, pass-through of unknown tokens. -/
def normalizeUnit (unit : String) : String :=
  if unit = "" then ""
  else
    let normalized := lowerTrim unit
    (alookup unitMap normalized).getD normalized

end Parser

namespace TextParser
/-!  backend/services/recipeTextParser.js — OCR text pipeline.  -/

open RecipeApp

/-- recipeTextParser.js `normalizeUnit`: the OCR variant's synonym table. -/
def unitMap : List (String × String) :=
  [("cup", "cups"), ("cups", "cups"), ("c", "cups"),
   ("tablespoon", "tbsp"), ("tablespoons", "tbsp"),
   ("tbsp", "tbsp"), ("tbs", "tbsp"),
   ("teaspoon", "tsp"), ("teaspoons", "tsp"), ("tsp", "tsp"),
   ("ounce", "oz"), ("ounces", "oz"), ("oz", "oz"),
   ("pound", "lbs"), ("pounds", "lbs"), ("lb", "lbs"), ("lbs", "lbs"),
   ("gram", "g"), ("grams", "g"), ("g", "g"),
   ("kilogram", "kg"), ("kilograms", "kg"), ("kg", "kg"),
   ("milliliter", "ml"), ("milliliters", "ml"), ("ml", "ml"),
   ("liter", "l"), ("liters", "l"), ("l", "l")]

/-- JS `replace(..., s)` dropping one trailing period, as in the OCR
normalizer's `.replace(/\.$/, '')`. -/
def stripTrailingPeriod (s : String) : String :=
  match s.data.reverse with
  | '.' :: rest => String.mk rest.reverse
  | _ => s

/-- recipeTextParser.js `normalizeUnit(unit)`: falsy guard, lowercase +
trim + drop one trailing period, table lookup, pass-through. -/
def normalizeUnit (unit : String) : String :=
  if unit = "" then ""
  else
    let normalized := stripTrailingPeriod (lowerTrim unit)
    (alookup unitMap normalized).getD normalized

end TextParser

namespace RecipeApp

/-- The canonical unit vocabulary fixed by the data model (volume, weight
and the neutral token). -/
def canonicalUnits : List String :=
  ["cups", "tbsp", "tsp", "fl oz", "ml", "l", "g", "kg", "oz", "lbs", "unit"]

end RecipeApp

namespace Parser

open RecipeApp

/-- parser.js `mapCategory`: the category synonym table. -/
def categoryMap : List (String × String) :=
  [("breakfast", "Breakfast"), ("brunch", "Breakfast"),
   ("lunch", "Lunch"), ("luncheon", "Lunch"),
   ("dinner", "Dinner"),
   ("mains", "Main Course"), ("main", "Main Course"),
   ("main course", "Main Course"), ("main dish", "Main Course"),
   ("entree", "Main Course"), ("entrée", "Main Course"),
   ("supper", "Dinner"),
   ("dessert", "Dessert"), ("desserts", "Dessert"),
   ("sweet", "Dessert"), ("sweets", "Dessert"), ("baking", "Dessert"),
   ("snack", "Snack"), ("snacks", "Snack"),
   ("appetizer", "Appetizer"), ("appetizers", "Appetizer"),
   ("starter", "Appetizer"), ("starters", "Appetizer"),
   ("hors d\x27oeuvre", "Appetizer"), ("finger food", "Appetizer"),
   ("beverage", "Beverage"), ("beverages", "Beverage"),
   ("drink", "Beverage"), ("drinks", "Beverage"),
   ("cocktail", "Beverage"), ("cocktails", "Beverage"),
   ("soup", "Soups"), ("soups", "Soups"),
   ("salad", "Salads"), ("salads", "Salads"),
   ("side", "Sides"), ("sides", "Sides"), ("side dish", "Sides"),
   ("bread", "Breads"), ("breads", "Breads"),
   ("pasta", "Pasta"), ("seafood", "Seafood"),
   ("vegetarian", "Vegetarian"), ("vegan", "Vegan")]

/-- JS `categoryStr.charAt(0).toUpperCase() + categoryStr.slice(1)`
(ASCII upcasing of the first character). -/
def titleCaseFirst (s : String) : String :=
  match s.data with
  | [] => ""
  | c :: rest => String.mk (Char.toUpper c :: rest)

/-- The body of parser.js `mapCategory` once a (truthy) category string
has been selected: lowercase + trim, synonym-table lookup, otherwise the
original string with its first character capitalized. -/
def mapCategoryStr (categoryStr : String) : String :=
  if categoryStr = "" then "Other"
  else
    let normalized := lowerTrim categoryStr
    match alookup categoryMap normalized with
    | some v => v
    | none => titleCaseFirst categoryStr

end Parser


namespace Utils
/-!  frontend/scripts/utils.js — unit conversion system.  -/

open RecipeApp

/-- utils.js `VOLUME_CONVERSIONS`: factors to milliliters. -/
def VOLUME_CONVERSIONS : List (String × ℚ) :=
  [("ml", 1), ("l", 1000),
   ("cups", 250), ("cup", 250),
   ("tbsp", 15), ("tablespoon", 15), ("tablespoons", 15),
   ("tsp", 5), ("teaspoon", 5), ("teaspoons", 5),
   ("fl oz", 29.5735), ("fluid ounce", 29.5735), ("fluid ounces", 29.5735),
   ("pint", 473.176), ("pints", 473.176),
   ("quart", 946.353), ("quarts", 946.353),
   ("gallon", 3785.41), ("gallons", 3785.41)]

/-- utils.js `WEIGHT_CONVERSIONS`: factors to grams. -/
def WEIGHT_CONVERSIONS : List (String × ℚ) :=
  [("g", 1), ("gram", 1), ("grams", 1),
   ("kg", 1000), ("kilogram", 1000), ("kilograms", 1000),
   ("mg", 0.001), ("milligram", 0.001), ("milligrams", 0.001),
   ("oz", 28.3495), ("ounce", 28.3495), ("ounces", 28.3495),
   ("lb", 453.592), ("lbs", 453.592),
   ("pound", 453.592), ("pounds", 453.592)]

def qlookup (m : List (String × ℚ)) (k : String) : Option ℚ :=
  (m.find? (fun p => p.1 == k)).map (·.2)

/-- utils.js `getUnitType(unit)`: volume / weight / neutral via the two
conversion tables (every factor in them is nonzero, hence truthy). -/
def getUnitType (unit : String) : String :=
  if unit = "" then "neutral"
  else
    let normalizedUnit := lowerTrim unit
    if (qlookup VOLUME_CONVERSIONS normalizedUnit).isSome then "volume"
    else if (qlookup WEIGHT_CONVERSIONS normalizedUnit).isSome then "weight"
    else "neutral"

def metricUnits : List String :=
  ["ml", "l", "g", "kg", "mg", "gram", "grams", "kilogram", "kilograms",
   "milligram", "milligrams"]

def imperialUnits : List String :=
  ["cups", "cup", "tbsp", "tsp", "tablespoon", "tablespoons", "teaspoon",
   "teaspoons", "fl oz", "fluid ounce", "fluid ounces", "oz", "ounce",
   "ounces", "lb", "lbs", "pound", "pounds", "pint", "pints", "quart",
   "quarts", "gallon", "gallons"]

/-- utils.js `getUnitSystem(unit)`. -/
def getUnitSystem (unit : String) : String :=
  if unit = "" then "neutral"
  else
    let normalizedUnit := lowerTrim unit
    if metricUnits.contains normalizedUnit then "metric"
    else if imperialUnits.contains normalizedUnit then "imperial"
    else "neutral"

end Utils

namespace RecipeApp

/-- Digit run to its numeric value, as JS `parseInt` on an all-digit
string. -/
def digitsToNat (ds : List Char) : ℕ :=
  ds.foldl (fun a c => 10 * a + (c.toNat - '0'.toNat)) 0

/-- An ingredient record `{quantity, unit, name}` of the import-stage
data model. -/
structure Ingredient where
  quantity : String
  unit : String
  name : String
deriving DecidableEq, Repr

end RecipeApp

namespace Utils

open RecipeApp

/-- The shape `^\d+\.?\d*$` (plain integer or decimal) together with its
`parseFloat` value. -/
def decShape? (cs : List Char) : Option ℚ :=
  let ds1 := cs.takeWhile isDigitCh
  let rest := cs.dropWhile isDigitCh
  if ds1 = [] then none
  else
    match rest with
    | [] => some (digitsToNat ds1)
    | '.' :: ds2 =>
      if ds2.all isDigitCh then
        some ((digitsToNat ds1 : ℚ) + (digitsToNat ds2 : ℚ) / (10 ^ ds2.length))
      else none
    | _ => none

/-- The shape `^\d+\/\d+$` (simple fraction), returning numerator and
denominator. -/
def fracShape? (cs : List Char) : Option (ℕ × ℕ) :=
  let n := cs.takeWhile isDigitCh
  match cs.dropWhile isDigitCh with
  | '/' :: rest =>
    if n ≠ [] ∧ rest ≠ [] ∧ rest.all isDigitCh then
      some (digitsToNat n, digitsToNat rest)
    else none
  | _ => none

/-- The shape `^\d+\s+\d+\/\d+$` (mixed number). -/
def mixedShape? (cs : List Char) : Option (ℕ × ℕ × ℕ) :=
  let w := cs.takeWhile isDigitCh
  let r1 := cs.dropWhile isDigitCh
  let ws := r1.takeWhile jsWs
  let r2 := r1.dropWhile jsWs
  if w ≠ [] ∧ ws ≠ [] then
    (fracShape? r2).map (fun p => (digitsToNat w, p))
  else none

/-- utils.js `parseQuantity` on a string argument: falsy guard, trim,
placeholder check, then the three shapes in source order.  (JS divides
a fraction by zero to `Infinity`; `ℚ` has no infinity, so theorems about
fraction inputs carry a nonzero-denominator hypothesis.) -/
def parseQuantityStr (quantity : String) : Option ℚ :=
  if quantity = "" then none
  else
    let str := jsTrim quantity
    if str = "" ∨ jsLower str = "to taste" ∨ jsLower str = "a pinch" then none
    else
      match decShape? str.data with
      | some v => some v
      | none =>
        match fracShape? str.data with
        | some (n, d) => some ((n : ℚ) / (d : ℚ))
        | none =>
          match mixedShape? str.data with
          | some (w, n, d) => some ((w : ℚ) + (n : ℚ) / (d : ℚ))
          | none => none

/-- utils.js `parseQuantity` takes a string or an already-numeric value
(numbers pass through unchanged). -/
inductive QuantityVal where
  | num : ℚ → QuantityVal
  | str : String → QuantityVal
deriving DecidableEq

def parseQuantity : QuantityVal → Option ℚ
  | .num q => some q
  | .str s => parseQuantityStr s

/-- utils.js `convertToMetric(quantity, unit)`: parse the quantity,
resolve the unit type, multiply by the table factor. -/
def convertToMetric (quantity : QuantityVal) (unit : String) : Option (ℚ × String) :=
  match parseQuantity quantity with
  | none => none
  | some parsedQty =>
    let normalizedUnit := if unit = "" then "" else lowerTrim unit
    let unitType := getUnitType normalizedUnit
    if unitType = "volume" then
      match qlookup VOLUME_CONVERSIONS normalizedUnit with
      | some f => some (parsedQty * f, "ml")
      | none => none
    else if unitType = "weight" then
      match qlookup WEIGHT_CONVERSIONS normalizedUnit with
      | some f => some (parsedQty * f, "g")
      | none => none
    else none

/-- utils.js `findBestMetricUnit(value, baseUnit)`: promote `ml` to `l`
and `g` to `kg` at the 1000 threshold. -/
def findBestMetricUnit (value : ℚ) (baseUnit : String) : ℚ × String :=
  if baseUnit = "ml" then
    if value ≥ 1000 then (value / 1000, "l") else (value, "ml")
  else if baseUnit = "g" then
    if value ≥ 1000 then (value / 1000, "kg") else (value, "g")
  else (value, baseUnit)

/-- utils.js `findBestImperialUnit(value, baseUnit)`: largest of
cups/tbsp/tsp keeping the quantity at least 1, else fl oz; lbs when at
least one pound, else oz (thresholds are the table factors). -/
def findBestImperialUnit (value : ℚ) (baseUnit : String) : ℚ × String :=
  if baseUnit = "ml" then
    if value ≥ 250 then (value / 250, "cups")
    else if value ≥ 15 then (value / 15, "tbsp")
    else if value ≥ 5 then (value / 5, "tsp")
    else (value / 29.5735, "fl oz")
  else if baseUnit = "g" then
    if value ≥ 453.592 then (value / 453.592, "lbs")
    else (value / 28.3495, "oz")
  else (value, baseUnit)

/-- JS `Math.round`: round half toward positive infinity. -/
def jsRound (x : ℚ) : ℤ := ⌊x + 1 / 2⌋

/-- utils.js `roundToPrecision(value)`: round to 2 decimals; values
strictly between 0 and 1 (after that rounding) are instead rounded to 1
decimal; values within 0.01 of an integer snap to it. -/
def roundToPrecision (value : ℚ) : ℚ :=
  let rounded : ℚ := (jsRound (value * 100) : ℚ) / 100
  if rounded < 1 ∧ rounded > 0 then (jsRound (value * 10) : ℚ) / 10
  else if |rounded - (jsRound rounded : ℚ)| < 0.01 then (jsRound rounded : ℚ)
  else rounded

/-- JS `Number.prototype.toString` restricted to multiples of 1/100 —
the only values `roundToPrecision` produces (shortest decimal without
trailing zeros; integers print with no point).  Other rationals, never
produced there, print as `num/den`. -/
def qToString (q : ℚ) : String :=
  let m := q * 100
  if m.den = 1 then
    let sign := if m.num < 0 then "-" else ""
    let a := m.num.natAbs
    let ip := a / 100
    let fr := a % 100
    sign ++ toString ip ++
      (if fr = 0 then ""
       else if fr % 10 = 0 then "." ++ toString (fr / 10)
       else if fr < 10 then ".0" ++ toString fr
       else "." ++ toString fr)
  else toString q.num ++ "/" ++ toString q.den

/-- utils.js `convertIngredient(ingredient, targetSystem)`. -/
def convertIngredient (ingredient : Ingredient) (targetSystem : String) :
    Option (String × String) :=
  if ingredient.unit = "" then none
  else
    let currentSystem := getUnitSystem ingredient.unit
    if currentSystem = targetSystem ∨ currentSystem = "neutral" then none
    else
      match convertToMetric (.str ingredient.quantity) ingredient.unit with
      | none => none
      | some (value, baseUnit) =>
        if targetSystem = "metric" then
          let result := findBestMetricUnit value baseUnit
          some (qToString (roundToPrecision result.1), result.2)
        else if targetSystem = "imperial" then
          let result := findBestImperialUnit value baseUnit
          some (qToString (roundToPrecision result.1), result.2)
        else none

end Utils

namespace RecipeApp

/-- JSON values, as produced by `JSON.parse` on a JSON-LD script body. -/
inductive Json where
  | nul : Json
  | bool : Bool → Json
  | num : ℚ → Json
  | str : String → Json
  | arr : List Json → Json
  | obj : List (String × Json) → Json

/-- JS property access `data[k]` on a parsed JSON value (`undefined`,
i.e. `none`, off objects). -/
def getField : Json → String → Option Json
  | .obj fs, k => (fs.find? (fun p => p.1 == k)).map (·.2)
  | _, _ => none

/-- JS truthiness of a JSON value. -/
def Json.truthy : Json → Bool
  | .nul => false
  | .bool b => b
  | .num q => q ≠ 0
  | .str s => s ≠ ""
  | .arr _ => true
  | .obj _ => true

mutual

/-- JS `toString()` of a JSON value (arrays join their elements with
commas; objects print as `[object Object]`; `null` has no `toString` in
JS — the sources only call it behind truthiness guards). -/
def jsonToStr : Json → String
  | .nul => "null"
  | .bool b => if b then "true" else "false"
  | .num q => Utils.qToString q
  | .str s => s
  | .arr xs => jsonListToStr xs
  | .obj _ => "[object Object]"

/-- The comma join `Array.prototype.toString` performs. -/
def jsonListToStr : List Json → String
  | [] => ""
  | [x] => jsonToStr x
  | x :: xs => jsonToStr x ++ "," ++ jsonListToStr xs

end

/-- The import-stage Recipe record both pipelines emit (§3 of the spec;
`additionalTime` is an integer because the JSON-LD derivation can go
negative, `servings` a rational because a numeric `recipeYield` passes
through unchanged). -/
structure ImportRecipe where
  title : String
  description : String
  category : String
  prepTime : ℕ
  cookTime : ℕ
  additionalTime : ℤ
  servings : ℚ
  imageUrl : String
  sourceUrl : String
  ingredients : List Ingredient
  instructions : List String
  tags : List String
deriving DecidableEq, Repr

/-- The character class `[\d\s\/\.]` of the two ingredient-line regexes. -/
def qtyClass (c : Char) : Bool :=
  isDigitCh c || jsWs c || c = '/' || c = '.'

end RecipeApp

namespace Parser

open RecipeApp

/-- JS regex match of parser.js
`/^([\d\s\/\.]+?)\s+([a-zA-Z]+)\s+(.+)$/` (lazy quantity, exactly one
unit word), with the engine's leftmost preference order: the lazy group
grows only on failure, the greedy pieces shrink only on failure, and `.`
does not match a newline.  Returns the three captures. -/
def ingredientMatch (cs : List Char) : Option (String × String × String) :=
  let maxQ := (cs.takeWhile qtyClass).length
  (List.range maxQ).findSome? (fun k =>
    let n1 := k + 1
    let r1 := cs.drop n1
    let maxWs1 := (r1.takeWhile jsWs).length
    (List.range maxWs1).findSome? (fun k2 =>
      let nws := maxWs1 - k2
      let r2 := r1.drop nws
      let maxL := (r2.takeWhile isAlphaCh).length
      (List.range maxL).findSome? (fun k3 =>
        let n2 := maxL - k3
        let r3 := r2.drop n2
        let maxWs2 := (r3.takeWhile jsWs).length
        (List.range maxWs2).findSome? (fun k4 =>
          let ns := maxWs2 - k4
          let rest := r3.drop ns
          if rest ≠ [] ∧ rest.all (fun c => c ≠ '\n') then
            some (String.mk (cs.take n1), String.mk (r2.take n2), String.mk rest)
          else none))))

/-- parser.js `parseIngredientText(text)`: quantity/unit/name on a
match (unit through `normalizeUnit`), otherwise the whole line is the
name. -/
def parseIngredientText (text : String) : Ingredient :=
  match ingredientMatch text.data with
  | some (q, u, n) => ⟨jsTrim q, normalizeUnit (jsTrim u), jsTrim n⟩
  | none => ⟨"", "", text⟩

/-- parser.js `parseIngredients(ingredients)`: arrays only; string
entries through `parseIngredientText`, other entries stringified into a
bare name. -/
def parseIngredients : Option Json → List Ingredient
  | some (.arr xs) =>
    xs.map (fun ing =>
      match ing with
      | .str s => parseIngredientText s
      | v => ⟨"", "", jsonToStr v⟩)
  | _ => []

/-- Leftmost occurrence of `(\d+)` immediately followed by the marker
character, as in parser.js `duration.match(/(\d+)H/)` (after a maximal
digit run the next character is not a digit, so the engine never needs
to backtrack inside the run). -/
def findNumBefore (marker : Char) : List Char → Option ℕ
  | [] => none
  | c :: cs =>
    if isDigitCh c then
      match (c :: cs).dropWhile isDigitCh with
      | m :: _ =>
        if m = marker then some (digitsToNat ((c :: cs).takeWhile isDigitCh))
        else findNumBefore marker cs
      | [] => findNumBefore marker cs
    else findNumBefore marker cs

/-- parser.js `parseTime(duration)` on the string payload: `\d+H` hours
and `\d+M` minutes extracted independently. -/
def parseTimeStr (duration : String) : ℕ :=
  let hours := (findNumBefore 'H' duration.data).getD 0
  let minutes := (findNumBefore 'M' duration.data).getD 0
  hours * 60 + minutes

/-- parser.js `parseTime(duration)`: whatever is not a (truthy) string
gives 0. -/
def parseTime : Option Json → ℕ
  | some (.str s) => if s = "" then 0 else parseTimeStr s
  | _ => 0

/-- First digit run anywhere in the string, JS `.match(/\d+/)`. -/
def firstDigitRun : List Char → Option ℕ
  | [] => none
  | c :: cs =>
    if isDigitCh c then some (digitsToNat ((c :: cs).takeWhile isDigitCh))
    else firstDigitRun cs

/-- parser.js `parseServings(yield_)`: falsy gives 0, numbers pass
through unchanged, anything else is stringified and scanned for its
first integer. -/
def parseServings : Option Json → ℚ
  | none => 0
  | some j =>
    if ! j.truthy then 0
    else
      match j with
      | .num q => q
      | v => ((firstDigitRun (jsonToStr v).data).map (fun n => (n : ℚ))).getD 0

/-- parser.js `parseImage(image)`, array branch:
`typeof image[0] === 'string' ? image[0] : image[0].url || ''`. -/
def parseImageArr : Json → String
  | .arr (x :: _) =>
    match x with
    | .str s => s
    | v =>
      match getField v "url" with
      | some u => if u.truthy then jsonToStr u else ""
      | none => ""
  | _ => ""

/-- parser.js `parseImage(image)`: plain string, `{url}` object, or
array of either (truthy non-string `url` values are stringified here;
the source returns them raw). -/
def parseImage : Option Json → String
  | none => ""
  | some img =>
    if ! img.truthy then ""
    else
      match img with
      | .str s => s
      | _ =>
        match getField img "url" with
        | some u => if u.truthy then jsonToStr u else parseImageArr img
        | none => parseImageArr img

/-- parser.js `parseInstructions`, `HowToSection` branch:
`inst.itemListElement.map(step => step.text || '').join(' ')` (a truthy
non-array `itemListElement` would make the source throw; modelled as
the empty string). -/
def itemListCase (v : Json) : String :=
  match getField v "itemListElement" with
  | some (.arr steps) =>
    String.intercalate " " (steps.map (fun step =>
      match getField step "text" with
      | some t => if t.truthy then jsonToStr t else ""
      | none => ""))
  | _ => ""

/-- parser.js `parseInstructions` per-entry mapping: plain string,
`{text}` object, or nested `HowToSection`. -/
def instructionToStr : Json → String
  | .str s => s
  | v =>
    match getField v "text" with
    | some t => if t.truthy then jsonToStr t else itemListCase v
    | none => itemListCase v

/-- parser.js `parseInstructions(instructions)`. -/
def parseInstructions : Option Json → List String
  | none => []
  | some j =>
    if ! j.truthy then []
    else
      match j with
      | .str s => [s]
      | .arr xs => (xs.map instructionToStr).filter (fun t => t ≠ "")
      | _ => []

/-- parser.js `parseTags(keywords)`: comma-split strings, arrays kept
as-is (entries stringified). -/
def parseTags : Option Json → List String
  | none => []
  | some j =>
    if ! j.truthy then []
    else
      match j with
      | .str s => ((jsSplit s ',').map jsTrim).filter (fun t => t ≠ "")
      | .arr xs => xs.map jsonToStr
      | _ => []

/-- parser.js `mapCategory(category)` on the raw JSON field: falsy gives
Other; arrays contribute their first element; a falsy first element
gives Other; otherwise the element is stringified and looked up by
`mapCategoryStr` (the title-case fallback of the source reads
`categoryStr.charAt(0)`, defined for the string values this model
covers). -/
def mapCategory (category : Option Json) : String :=
  match category with
  | none => "Other"
  | some c =>
    if ! c.truthy then "Other"
    else
      let categoryStr? : Option Json :=
        match c with
        | .arr xs => xs.head?
        | _ => some c
      match categoryStr? with
      | none => "Other"
      | some cs => if ! cs.truthy then "Other" else mapCategoryStr (jsonToStr cs)

/-- Is this JSON-LD node a Schema.org Recipe
(`item['@type'] === 'Recipe'`)? -/
def isRecipeItem (item : Json) : Bool :=
  match getField item "@type" with
  | some (.str s) => s = "Recipe"
  | _ => false

def findRecipeItem (xs : List Json) : Option Json :=
  xs.find? isRecipeItem

/-- parser.js `extractRecipeFromJsonLd(data)`: locate the Recipe node
(`@graph` member, array member, or the document itself) and map its
fields.  `sourceUrl` is `recipe.url || ''` — the function receives no
caller URL in this revision of the source. -/
def extractRecipeFromJsonLd (data : Json) : Option ImportRecipe :=
  let recipe? : Option Json :=
    match getField data "@graph" with
    | some (.arr xs) => findRecipeItem xs
    | _ =>
      match data with
      | .arr xs => findRecipeItem xs
      | _ => if isRecipeItem data then some data else none
  match recipe? with
  | none => none
  | some recipe =>
    some
      { title := match getField recipe "name" with
          | some t => if t.truthy then jsonToStr t else ""
          | none => ""
        description := match getField recipe "description" with
          | some t => if t.truthy then jsonToStr t else ""
          | none => ""
        category := mapCategory (getField recipe "recipeCategory")
        prepTime := parseTime (getField recipe "prepTime")
        cookTime := parseTime (getField recipe "cookTime")
        additionalTime :=
          (parseTime (getField recipe "totalTime") : ℤ) -
            (parseTime (getField recipe "prepTime") : ℤ) -
            (parseTime (getField recipe "cookTime") : ℤ)
        servings := parseServings (getField recipe "recipeYield")
        imageUrl := parseImage (getField recipe "image")
        sourceUrl := match getField recipe "url" with
          | some t => if t.truthy then jsonToStr t else ""
          | none => ""
        ingredients := parseIngredients (getField recipe "recipeIngredient")
        instructions := parseInstructions (getField recipe "recipeInstructions")
        tags := parseTags (getField recipe "keywords") }

/-- parser.js `parseJsonLd(html)`: the page's
`script[type="application/ld+json"]` bodies after `JSON.parse`
(`none` for a malformed body, silently skipped); first extracted recipe
wins.  The cheerio tag scan itself is DOM plumbing outside the core, so
the html argument is abstracted to that list; note the function receives
no source URL. -/
def parseJsonLd (scripts : List (Option Json)) : Option ImportRecipe :=
  scripts.findSome? (fun s => s.bind extractRecipeFromJsonLd)

/-- The per-field results of parser.js `parseHtml`'s cascading CSS
selector guesses (title, description, image, ingredient item texts,
instruction item texts).  The cheerio DOM querying is external plumbing;
the record holds what the cascades returned. -/
structure HtmlFields where
  title : String
  description : String
  imageUrl : String
  ingredientTexts : List String
  instructionTexts : List String

/-- parser.js `parseHtml(html, sourceUrl)` given the selector-cascade
results: category is always Other, all times and servings 0, non-http
image dropped, item texts trimmed, empties skipped, ingredients through
`parseIngredientText`.  Returns a record unconditionally. -/
def parseHtml (f : HtmlFields) (sourceUrl : String) : ImportRecipe :=
  { title := f.title
    description := f.description
    category := "Other"
    prepTime := 0
    cookTime := 0
    additionalTime := 0
    servings := 0
    imageUrl := if jsStartsWith f.imageUrl "http" then f.imageUrl else ""
    sourceUrl := sourceUrl
    ingredients :=
      ((f.ingredientTexts.map jsTrim).filter (fun t => t ≠ "")).map parseIngredientText
    instructions := (f.instructionTexts.map jsTrim).filter (fun t => t ≠ "")
    tags := [] }

end Parser

namespace TextParser

open RecipeApp

/-- The `:?$` tail of the section-header regexes: drop one trailing
colon when present. -/
def stripTrailingColon (s : String) : String :=
  match s.data.reverse with
  | ':' :: rest => String.mk rest.reverse
  | _ => s

/-- Anchored match of `/^(ingredients?|what you need):?$/i`. -/
def isIngredientsHeader (line : String) : Bool :=
  let l := jsLower line
  let base := stripTrailingColon l
  base = "ingredient" || base = "ingredients" || base = "what you need"

/-- Anchored match of
`/^(instructions?|directions?|method|steps?|preparation):?$/i`. -/
def isInstructionsHeader (line : String) : Bool :=
  let l := jsLower line
  let base := stripTrailingColon l
  base = "instruction" || base = "instructions" || base = "direction" ||
    base = "directions" || base = "method" || base = "step" ||
    base = "steps" || base = "preparation"

/-- Anchored match of
`/^(ingredients?|directions?|instructions?|method|steps?):?$/i`
(the section headers `extractTitle` skips). -/
def isTitleSectionHeader (line : String) : Bool :=
  let l := jsLower line
  let base := stripTrailingColon l
  base = "ingredient" || base = "ingredients" || base = "direction" ||
    base = "directions" || base = "instruction" || base = "instructions" ||
    base = "method" || base = "step" || base = "steps"

/-- Anchored match of `/^(ingredients?|instructions?|directions?):?$/i`
(the headers `parseIngredientLines` skips). -/
def isIngLineHeader (line : String) : Bool :=
  let l := jsLower line
  let base := stripTrailingColon l
  base = "ingredient" || base = "ingredients" || base = "instruction" ||
    base = "instructions" || base = "direction" || base = "directions"

/-- Anchored match of `/^(notes?|tips?|nutrition|source):?$/i`. -/
def isNotesHeader (line : String) : Bool :=
  let l := jsLower line
  let base := stripTrailingColon l
  base = "note" || base = "notes" || base = "tip" || base = "tips" ||
    base = "nutrition" || base = "source"

/-- The bullet characters of the list-marker regexes
`/^[•\-*·◦▪▫+«»]\s*/`. -/
def isBulletCh (c : Char) : Bool :=
  c = '•' || c = '-' || c = '*' || c = '·' || c = '◦' || c = '▪' ||
    c = '▫' || c = '+' || c = '«' || c = '»'

/-- Does the line start with a bullet marker (`line.match` of the bullet
regex — with `\s*` the marker is just the leading bullet character)? -/
def hasBulletMarker (cs : List Char) : Bool :=
  match cs with
  | c :: _ => isBulletCh c
  | [] => false

/-- Does the line start with a numbered-list marker, `/^\d+[.):]\s*/`? -/
def hasNumberMarker (cs : List Char) : Bool :=
  let ds := cs.takeWhile isDigitCh
  match cs.dropWhile isDigitCh with
  | m :: _ => ds ≠ [] && (m = '.' || m = ')' || m = ':')
  | [] => false

/-- JS `line.replace(/^[•\-*·◦▪▫+«»]\s*/, '')`. -/
def stripBulletMarker (cs : List Char) : List Char :=
  match cs with
  | c :: rest => if isBulletCh c then rest.dropWhile jsWs else cs
  | [] => []

/-- JS `.replace(/^\d+[.):]\s*/, '')`. -/
def stripNumberMarker (cs : List Char) : List Char :=
  if hasNumberMarker cs then
    match (cs.dropWhile isDigitCh) with
    | _ :: rest => rest.dropWhile jsWs
    | [] => cs
  else cs

/-- The marker cleanup both ingredient and instruction lines get:
bullet strip, then number strip, then trim. -/
def cleanMarkers (line : String) : String :=
  String.mk (trimChars (stripNumberMarker (stripBulletMarker line.data)))

/-- JS regex match of recipeTextParser.js
`/^([\d\s\/\.]+)\s*([a-zA-Z]+\.?)?\s+(.+)$/` (greedy quantity, optional
unit word that may carry a trailing period), with the engine's
preference order: greedy pieces try longest first, the optional group
tries to be present (and to take the period) before absent, and `.`
does not match a newline. -/
def ocrIngredientMatch (cs : List Char) : Option (String × Option String × String) :=
  let maxQ := (cs.takeWhile qtyClass).length
  (List.range maxQ).findSome? (fun k =>
    let n1 := maxQ - k
    let r1 := cs.drop n1
    let maxWs := (r1.takeWhile jsWs).length
    (List.range (maxWs + 1)).findSome? (fun k2 =>
      let nws := maxWs - k2
      let r2 := r1.drop nws
      let tryTail : List Char → Option String → Option (String × Option String × String) :=
        fun r3 g2 =>
          let maxS := (r3.takeWhile jsWs).length
          (List.range maxS).findSome? (fun k3 =>
            let ns := maxS - k3
            let rest := r3.drop ns
            if rest ≠ [] ∧ rest.all (fun c => c ≠ '\n') then
              some (String.mk (cs.take n1), g2, String.mk rest)
            else none)
      let withUnit :=
        let maxL := (r2.takeWhile isAlphaCh).length
        (List.range maxL).findSome? (fun k4 =>
          let n2 := maxL - k4
          let letters := r2.take n2
          match r2.drop n2 with
          | '.' :: r4 =>
            (tryTail r4 (some (String.mk (letters ++ ['.'])))).orElse
              (fun _ => tryTail ('.' :: r4) (some (String.mk letters)))
          | r3 => tryTail r3 (some (String.mk letters)))
      withUnit.orElse (fun _ => tryTail r2 none)))

/-- recipeTextParser.js `parseIngredientText(text)`: the lenient OCR
variant; an absent unit group gives `normalizeUnit(undefined)`, i.e.
the empty string (`|| ''` in the source). -/
def parseIngredientText (text : String) : Ingredient :=
  match ocrIngredientMatch text.data with
  | some (q, u?, n) =>
    ⟨jsTrim q, (u?.map normalizeUnit).getD "", jsTrim n⟩
  | none => ⟨"", "", text⟩

/-- recipeTextParser.js `parseIngredientLines(lines)`: skip empties and
section headers, strip list markers, parse each remaining line (the
parse always yields a record, so every kept line contributes one). -/
def parseIngredientLines (lines : List String) : List Ingredient :=
  lines.foldr
    (fun line acc =>
      if line = "" then acc
      else if isIngLineHeader line then acc
      else
        let cleanLine := cleanMarkers line
        if cleanLine = "" then acc
        else parseIngredientText cleanLine :: acc)
    []

/-- recipeTextParser.js `extractIngredients(text)`: the lines between an
Ingredients heading and the next Instructions-type heading (the whole
text when no heading is found). -/
def extractIngredients (text : String) : List Ingredient :=
  let lines := (jsSplit text '\n').map jsTrim
  match lines.findIdx? isIngredientsHeader with
  | none => parseIngredientLines lines
  | some startIndex =>
    let rest := lines.drop (startIndex + 1)
    match rest.findIdx? isInstructionsHeader with
    | none => parseIngredientLines rest
    | some k => parseIngredientLines (rest.take k)

/-- The loop body state of recipeTextParser.js `parseInstructionLines`:
remaining lines, current paragraph, last-line-was-empty flag.  A line of
markers only (`cleanLine` empty) is skipped by `continue` before the
flag update, so the flag survives it. -/
def instructionLoop : List String → String → Bool → List String
  | [], currentParagraph, _ =>
    if jsTrim currentParagraph ≠ "" then [jsTrim currentParagraph] else []
  | line :: rest, currentParagraph, lastLineWasEmpty =>
    if line = "" then instructionLoop rest currentParagraph true
    else if isNotesHeader line then
      if jsTrim currentParagraph ≠ "" then [jsTrim currentParagraph] else []
    else
      let cleanLine := cleanMarkers line
      if cleanLine = "" then instructionLoop rest currentParagraph lastLineWasEmpty
      else
        let isNewStep :=
          lastLineWasEmpty || hasBulletMarker line.data || hasNumberMarker line.data
        if isNewStep ∧ jsTrim currentParagraph ≠ "" then
          jsTrim currentParagraph :: instructionLoop rest cleanLine false
        else if currentParagraph ≠ "" then
          instructionLoop rest (currentParagraph ++ " " ++ cleanLine) false
        else
          instructionLoop rest cleanLine false

/-- recipeTextParser.js `parseInstructionLines(lines)` (the trailing
"split one giant instruction" block is commented out in the source). -/
def parseInstructionLines (lines : List String) : List String :=
  instructionLoop lines "" false

/-- recipeTextParser.js `extractInstructions`, the no-heading fallback:
after the ingredients section, the first line that carries no
`[-•*\d]` marker and is longer than 20 characters starts the
instructions. -/
def noHeadingFallback (lines : List String) : List String :=
  match lines.findIdx? isIngredientsHeader with
  | none => []
  | some ingredientsIndex =>
    let afterIngredients := lines.drop (ingredientsIndex + 1)
    match afterIngredients.findIdx? (fun line =>
        !(match line.data with
          | c :: _ => c = '-' || c = '•' || c = '*' || isDigitCh c
          | [] => false) && line.length > 20) with
    | none => []
    | some instructionsStart =>
      parseInstructionLines (afterIngredients.drop instructionsStart)

/-- recipeTextParser.js `extractInstructions(text)`. -/
def extractInstructions (text : String) : List String :=
  let lines := (jsSplit text '\n').map jsTrim
  match lines.findIdx? isInstructionsHeader with
  | none => noHeadingFallback lines
  | some startIndex => parseInstructionLines (lines.drop (startIndex + 1))

/-- Split on runs of whitespace (JS `split(/\s+/)` on a trimmed line;
JS yields `[""]` on the empty string, this yields `[]` — both make
`every` hold, which is the only use). -/
def splitWsRuns : List Char → List Char → List (List Char)
  | [], acc => if acc = [] then [] else [acc.reverse]
  | c :: cs, acc =>
    if jsWs c then
      if acc = [] then splitWsRuns cs []
      else acc.reverse :: splitWsRuns cs []
    else splitWsRuns cs (c :: acc)

/-- The anchored match `/^[A-Z]{2,}\s+[a-z]$/`: two or more capitals,
whitespace, one lowercase letter (OCR garbage such as `CETTE a`). -/
def upperGarbage (cs : List Char) : Bool :=
  let ups := cs.takeWhile (fun c => 'A' ≤ c && c ≤ 'Z')
  let r1 := cs.drop ups.length
  let ws := r1.takeWhile jsWs
  let r2 := r1.drop ws.length
  ups.length ≥ 2 && ws ≠ [] &&
    (match r2 with
     | [c] => 'a' ≤ c && c ≤ 'z'
     | _ => false)

/-- `line.split(/\s+/).every(word => word.length <= 2)`: every
whitespace-separated word has at most two characters. -/
def allTinyWords (line : String) : Bool :=
  (splitWsRuns line.data []).all (fun w => w.length ≤ 2)

/-- The per-line skips of recipeTextParser.js `extractTitle`: short
lines, lines with no letters, the two OCR-garbage patterns, and section
headers.  A line passing none of the skips is "meaningful". -/
def titleSkip (line : String) : Bool :=
  line.length < 3 ||
  line.data.all (fun c => !isAlphaCh c) ||
  upperGarbage line.data ||
  allTinyWords line ||
  isTitleSectionHeader line

/-- JS `titleLine.replace(/^(recipe:?\s*)/i, '')` (and the same for
`title:`): drop the case-insensitive word, an optional colon, and any
following whitespace, when the line starts with the word. -/
def stripLead (word : String) (s : String) : String :=
  if jsStartsWith (jsLower s) word then
    let rest := s.data.drop word.length
    let rest2 := match rest with
      | ':' :: r => r.dropWhile jsWs
      | r => r.dropWhile jsWs
    String.mk rest2
  else s

/-- recipeTextParser.js `extractTitle(text)`: first meaningful line,
with `recipe:`/`title:` lead-ins stripped, else Untitled Recipe. -/
def extractTitle (text : String) : String :=
  let lines := ((jsSplit text '\n').map jsTrim).filter (fun l => l ≠ "")
  match lines.find? (fun line => !titleSkip line) with
  | none => "Untitled Recipe"
  | some titleLine =>
    let title := jsTrim (stripLead "title" (stripLead "recipe" titleLine))
    if title = "" then "Untitled Recipe" else title

/-- The metadata prefixes `/^(prep|cook|total|serves?|yield)/i`
`extractDescription` filters out. -/
def isMetaLine (line : String) : Bool :=
  let l := jsLower line
  jsStartsWith l "prep" || jsStartsWith l "cook" || jsStartsWith l "total" ||
    jsStartsWith l "serve" || jsStartsWith l "yield"

/-- recipeTextParser.js `extractDescription(text)`: the non-empty,
non-metadata lines strictly between the title line and an Ingredients
heading at index two or later, joined with spaces and cut to 500
characters. -/
def extractDescription (text : String) : String :=
  let lines := (jsSplit text '\n').map jsTrim
  match lines.findIdx? isIngredientsHeader with
  | some ingredientsIndex =>
    if ingredientsIndex > 1 then
      let descriptionLines :=
        ((lines.take ingredientsIndex).drop 1).filter
          (fun l => l ≠ "" && !isMetaLine l)
      String.mk ((String.intercalate " " descriptionLines).data.take 500)
    else ""
  | none => ""

end TextParser

namespace RecipeApp

/-- Unanchored JS regex search: try the anchored attempt at every start
position, leftmost match first. -/
def scanPositions {α : Type} (f : List Char → Option α) : List Char → Option α
  | [] => f []
  | c :: cs =>
    match f (c :: cs) with
    | some v => some v
    | none => scanPositions f cs

/-- Case-insensitive prefix test (ASCII; the pattern is given
lowercase). -/
def ciStartsWith (cs : List Char) (p : String) : Bool :=
  startsWithChars (cs.map Char.toLower) p.data

end RecipeApp

namespace TextParser

open RecipeApp

/-- The unit alternation `(min|minute|minutes|hr|hour|hours)` of the
`extractTime` regexes, in source order, tagged with whether
`extractTime` multiplies by 60 (`unit.startsWith('hr'|'hour')`). -/
def timeUnitAlts : List (String × Bool) :=
  [("min", false), ("minute", false), ("minutes", false),
   ("hr", true), ("hour", true), ("hours", true)]

/-- The `:?\s*(\d+)\s*(min|...)` tail of the `extractTime` patterns,
already converted to minutes. -/
def timeTail (cs : List Char) : Option ℕ :=
  let cs1 := match cs with | ':' :: r => r | r => r
  let cs2 := cs1.dropWhile jsWs
  let ds := cs2.takeWhile isDigitCh
  if ds = [] then none
  else
    let cs3 := (cs2.drop ds.length).dropWhile jsWs
    match timeUnitAlts.find? (fun a => ciStartsWith cs3 a.1) with
    | some a => some (if a.2 then digitsToNat ds * 60 else digitsToNat ds)
    | none => none

/-- Anchored attempt of `word(?:\s+time)?:?\s*(\d+)\s*(min|...)`:
the optional `\s+time` group is tried first, and given back when the
tail fails after it (JS backtracking). -/
def timeAttempt (word : String) (cs : List Char) : Option ℕ :=
  if ciStartsWith cs word then
    let r := cs.drop word.length
    let ws := r.takeWhile jsWs
    let withTime :=
      if ws ≠ [] ∧ ciStartsWith (r.drop ws.length) "time" then
        timeTail ((r.drop ws.length).drop 4)
      else none
    match withTime with
    | some v => some v
    | none => timeTail r
  else none

/-- recipeTextParser.js `extractTime(text, timeType)`: whole-text search
for `prep|cook|total (time): N min|hr`, in minutes; unknown type gives
0. -/
def extractTime (text : String) (timeType : String) : ℕ :=
  if timeType = "prep" ∨ timeType = "cook" ∨ timeType = "total" then
    (scanPositions (timeAttempt timeType) text.data).getD 0
  else 0

/-- Anchored attempt of `word s? :? \s* (\d+)` (the `s` optional for
`serves?`/`makes?`), with the optional letter given back when the tail
fails after it. -/
def servAttempt (word : String) (optS : Bool) (cs : List Char) : Option ℕ :=
  if ciStartsWith cs word then
    let r := cs.drop word.length
    let tail : List Char → Option ℕ := fun c2 =>
      let c3 := match c2 with | ':' :: r2 => r2 | r2 => r2
      let c4 := c3.dropWhile jsWs
      let ds := c4.takeWhile isDigitCh
      if ds = [] then none else some (digitsToNat ds)
    if optS then
      match r with
      | c :: r2 =>
        if c.toLower = 's' then
          match tail r2 with
          | some v => some v
          | none => tail r
        else tail r
      | [] => tail r
    else tail r
  else none

/-- recipeTextParser.js `extractServings(text)`: the three patterns
`serves?`, `yield`, `makes?` tried in order over the whole text. -/
def extractServings (text : String) : ℕ :=
  match scanPositions (servAttempt "serve" true) text.data with
  | some v => v
  | none =>
    match scanPositions (servAttempt "yield" false) text.data with
    | some v => v
    | none => (scanPositions (servAttempt "make" true) text.data).getD 0

/-- recipeTextParser.js `parseRecipeFromText(text)`: throws (`Except`)
on falsy input and on whitespace-only input, otherwise assembles the
record from the extractors (the `console.log` debugging is I/O-free of
meaning and not modelled). -/
def parseRecipeFromText (text : String) : Except String ImportRecipe :=
  if text = "" then .error "Invalid text provided for parsing"
  else
    let cleanText := jsTrim text
    if cleanText = "" then .error "No text content to parse"
    else
      .ok
        { title := extractTitle cleanText
          description := extractDescription cleanText
          category := "Other"
          prepTime := extractTime cleanText "prep"
          cookTime := extractTime cleanText "cook"
          additionalTime := 0
          servings := (extractServings cleanText : ℚ)
          imageUrl := ""
          sourceUrl := ""
          ingredients := extractIngredients cleanText
          instructions := extractInstructions cleanText
          tags := [] }

end TextParser

namespace Utils

open RecipeApp

/-- The rounding rule as the specification words it (second definition
for comparison with the source's `roundToPrecision`): round to 2
decimal places and snap to an integer when within 0.01 of one, at every
magnitude of the converted value. -/
def specRound (value : ℚ) : ℚ :=
  let rounded : ℚ := (jsRound (value * 100) : ℚ) / 100
  if |rounded - (jsRound rounded : ℚ)| < 0.01 then (jsRound rounded : ℚ)
  else rounded

end Utils

namespace RecipeApp

/-- The §8 OCR example text: an Ingredients heading, one bulleted
ingredient line, an Instructions heading, two numbered steps separated
by a blank line. -/
def sampleOcrText : String :=
  "Ingredients:\n- 2 cups flour\nInstructions:\n1. Mix well.\n\n2. Bake."

/-- The §8 JSON-LD example document:
a Recipe with a name and one ingredient and no url field. -/
def sampleJsonLd : Json :=
  .obj [("@type", .str "Recipe"), ("name", .str "X"),
        ("recipeIngredient", .arr [.str "2 cups flour"])]

/-- A JSON-LD Recipe that does carry its own url field. -/
def sampleJsonLdWithUrl : Json :=
  .obj [("@type", .str "Recipe"), ("name", .str "X"),
        ("url", .str "https://original.example/page")]

/-- A JSON-LD Recipe with a prep time but no total time: the
`totalTime - prepTime - cookTime` derivation goes negative on it. -/
def inconsistentTimesDoc : Json :=
  .obj [("@type", .str "Recipe"), ("name", .str "X"),
        ("prepTime", .str "PT15M")]

/-- The record the JSON-LD extractor emits on `inconsistentTimesDoc`. -/
def inconsistentTimesRec : ImportRecipe :=
  { title := "X", description := "", category := "Other",
    prepTime := 15, cookTime := 0, additionalTime := -15, servings := 0,
    imageUrl := "", sourceUrl := "", ingredients := [], instructions := [],
    tags := [] }

end RecipeApp

namespace RecipeApp

/-- A successful association-list lookup returns one of the list's
values. -/
theorem find_map_mem {α : Type} {m : List (String × α)} {k : String} {v : α}
    (h : ((m.find? (fun p => p.1 == k)).map (·.2)) = some v) :
    v ∈ m.map Prod.snd := by
  cases hf : m.find? (fun p => p.1 == k) with
  | none => rw [hf] at h; exact absurd h (by simp)
  | some p =>
    rw [hf] at h
    have hv : p.2 = v := by
      simpa using h
    exact hv ▸ List.mem_map_of_mem _ (List.mem_of_find?_eq_some hf)

theorem alookup_mem {m : List (String × String)} {k v : String}
    (h : alookup m k = some v) : v ∈ m.map Prod.snd :=
  find_map_mem h

theorem qlookup_mem {m : List (String × ℚ)} {k : String} {v : ℚ}
    (h : Utils.qlookup m k = some v) : v ∈ m.map Prod.snd :=
  find_map_mem h

/-- A list all of whose elements satisfy a decidable predicate passes it
at any member. -/
theorem of_all_mem {α : Type} {p : α → Bool} {l : List α} {x : α}
    (hall : l.all p = true) (hx : x ∈ l) : p x = true := by
  rw [List.all_eq_true] at hall
  exact hall x hx

end RecipeApp

namespace RecipeApp

/-- A successful association-list lookup's key is one of the list's
keys. -/
theorem find_key_mem {α : Type} {m : List (String × α)} {k : String} {v : α}
    (h : ((m.find? (fun p => p.1 == k)).map (·.2)) = some v) :
    k ∈ m.map Prod.fst := by
  cases hf : m.find? (fun p => p.1 == k) with
  | none => rw [hf] at h; exact absurd h (by simp)
  | some p =>
    have hk : p.1 = k := by
      have hp := List.find?_some hf
      simpa using hp
    exact hk ▸ List.mem_map_of_mem _ (List.mem_of_find?_eq_some hf)

end RecipeApp

open RecipeApp in
/-- C9: `mapCategory` returns Other for every empty input (null,
undefined, empty string, empty array), takes the first element of an
array, maps the fixed synonym table case-insensitively after trimming
(Mains, main, entree, entrée all give Main Course), and preserves every
unrecognized category with only its first character capitalized, never
collapsing it to Other. -/
theorem C9_mapCategory :
    (Parser.mapCategory none = "Other" ∧
     Parser.mapCategory (some .nul) = "Other" ∧
     Parser.mapCategory (some (.str "")) = "Other" ∧
     Parser.mapCategory (some (.arr [])) = "Other") ∧
    (∀ (s : String) (xs : List Json),
      Parser.mapCategory (some (.arr (.str s :: xs))) =
        Parser.mapCategory (some (.str s))) ∧
    (Parser.mapCategory (some (.str "Mains")) = "Main Course" ∧
     Parser.mapCategory (some (.str "main")) = "Main Course" ∧
     Parser.mapCategory (some (.str "entree")) = "Main Course" ∧
     Parser.mapCategory (some (.str "entrée")) = "Main Course" ∧
     Parser.mapCategory (some (.str "  MAIN  ")) = "Main Course") ∧
    (∀ (s v : String), s ≠ "" →
      alookup Parser.categoryMap (lowerTrim s) = some v →
      Parser.mapCategory (some (.str s)) = v) ∧
    (∀ s : String, s ≠ "" →
      alookup Parser.categoryMap (lowerTrim s) = none →
      Parser.mapCategory (some (.str s)) = Parser.titleCaseFirst s) ∧
    Parser.mapCategory (some (.str "totally-novel-category")) =
      "Totally-novel-category" := by
  refine ⟨by decide, ?_, by decide, ?_, ?_, by decide⟩
  · intro s xs
    by_cases hs : s = "" <;>
      simp [Parser.mapCategory, Json.truthy, jsonToStr, hs]
  · intro s v hs hv
    simp [Parser.mapCategory, Json.truthy, jsonToStr, Parser.mapCategoryStr, hs, hv]
  · intro s hs hv
    simp [Parser.mapCategory, Json.truthy, jsonToStr, Parser.mapCategoryStr, hs, hv]

/-- C9 witness: the synonym-lookup and title-case branches applied at
concrete categories. -/
theorem C9_witness :
    Parser.mapCategory (some (.str "Soup")) = "Soups" ∧
    Parser.mapCategory (some (.str "weeknight")) = "Weeknight" :=
  ⟨C9_mapCategory.2.2.2.1 "Soup" "Soups" (by decide) (by decide),
   C9_mapCategory.2.2.2.2.1 "weeknight" (by decide) (by decide)⟩

open RecipeApp in
/-- C4 (amended): both unit normalizers map into the canonical
vocabulary or pass the lowercased, trimmed (and, for the OCR variant,
trailing-period-stripped) token through unchanged, and the two agree on
every canonical token and on every period-free token unknown to both
tables; but their synonym tables differ, so they disagree on tokens only
one table maps (e.g. tbs, c, liter are canonicalized only by the OCR
variant, and millilitre, fluid ounce only by the structured variant). -/
theorem C4_unit_normalizers :
    (∀ u : String, Parser.normalizeUnit u ∈ canonicalUnits ∨
        Parser.normalizeUnit u = lowerTrim u) ∧
    (∀ u : String, TextParser.normalizeUnit u ∈ canonicalUnits ∨
        TextParser.normalizeUnit u =
          TextParser.stripTrailingPeriod (lowerTrim u)) ∧
    (∀ u ∈ canonicalUnits, Parser.normalizeUnit u = TextParser.normalizeUnit u) ∧
    (∀ u : String,
        TextParser.stripTrailingPeriod (lowerTrim u) = lowerTrim u →
        alookup Parser.unitMap (lowerTrim u) = none →
        alookup TextParser.unitMap (lowerTrim u) = none →
        Parser.normalizeUnit u = TextParser.normalizeUnit u) := by
  refine ⟨?_, ?_, by decide, ?_⟩
  · intro u
    by_cases hu : u = ""
    · subst hu; right; rfl
    · unfold Parser.normalizeUnit
      rw [if_neg hu]
      cases h : alookup Parser.unitMap (lowerTrim u) with
      | none => right; simp only [h, Option.getD_none]
      | some v =>
        simp only [h, Option.getD_some]
        left
        have hv := alookup_mem h
        have hall : (Parser.unitMap.map Prod.snd).all
            (fun v => decide (v ∈ canonicalUnits)) = true := by decide
        exact of_decide_eq_true
          (of_all_mem (p := fun v => decide (v ∈ canonicalUnits)) hall hv)
  · intro u
    by_cases hu : u = ""
    · subst hu; right; rfl
    · unfold TextParser.normalizeUnit
      rw [if_neg hu]
      cases h : alookup TextParser.unitMap (TextParser.stripTrailingPeriod (lowerTrim u)) with
      | none => right; simp only [h, Option.getD_none]
      | some v =>
        simp only [h, Option.getD_some]
        left
        have hv := alookup_mem h
        have hall : (TextParser.unitMap.map Prod.snd).all
            (fun v => decide (v ∈ canonicalUnits)) = true := by decide
        exact of_decide_eq_true
          (of_all_mem (p := fun v => decide (v ∈ canonicalUnits)) hall hv)
  · intro u hstrip h1 h2
    by_cases hu : u = ""
    · subst hu; rfl
    · unfold Parser.normalizeUnit TextParser.normalizeUnit
      rw [if_neg hu, if_neg hu]
      simp only [hstrip, h1, h2, Option.getD_none]

/-- C4 counterexample: the raw token tbs carries no trailing period,
yet the OCR normalizer canonicalizes it to tbsp while the
structured-source normalizer passes it through unchanged. -/
theorem C4_counterexample :
    TextParser.normalizeUnit "tbs" = "tbsp" ∧
    Parser.normalizeUnit "tbs" = "tbs" ∧
    TextParser.stripTrailingPeriod (RecipeApp.lowerTrim "tbs") =
      RecipeApp.lowerTrim "tbs" ∧
    TextParser.normalizeUnit "tbs" ≠ Parser.normalizeUnit "tbs" := by
  decide

/-- C4 witness: agreement on a canonical token and on a token unknown
to both tables. -/
theorem C4_witness :
    Parser.normalizeUnit "ml" = TextParser.normalizeUnit "ml" ∧
    Parser.normalizeUnit "pinch" = TextParser.normalizeUnit "pinch" :=
  ⟨C4_unit_normalizers.2.2.1 "ml" (by decide),
   C4_unit_normalizers.2.2.2 "pinch" (by decide) (by decide) (by decide)⟩

open RecipeApp in
/-- C6: `convertIngredient` returns null (none) whenever the
ingredient's unit already belongs to the target system or is neutral —
the token unit, an empty unit, or any token recognized by neither the
volume nor the weight table (for non-empty units, neutrality is exactly
absence from both tables) — and also when the quantity is non-numeric,
so the caller keeps the original ingredient. -/
theorem C6_no_conversion :
    (∀ (ing : Ingredient) (targetSystem : String),
        Utils.getUnitSystem ing.unit = targetSystem →
        Utils.convertIngredient ing targetSystem = none) ∧
    (∀ (ing : Ingredient) (targetSystem : String),
        Utils.getUnitSystem ing.unit = "neutral" →
        Utils.convertIngredient ing targetSystem = none) ∧
    (∀ u : String, u ≠ "" →
        (Utils.getUnitSystem u = "neutral" ↔
          Utils.qlookup Utils.VOLUME_CONVERSIONS (lowerTrim u) = none ∧
          Utils.qlookup Utils.WEIGHT_CONVERSIONS (lowerTrim u) = none)) ∧
    (∀ (ing : Ingredient) (targetSystem : String),
        Utils.parseQuantityStr ing.quantity = none →
        Utils.convertIngredient ing targetSystem = none) ∧
    Utils.convertIngredient ⟨"2", "unit", "eggs"⟩ "metric" = none ∧
    Utils.convertIngredient ⟨"to taste", "cups", "salt"⟩ "metric" = none ∧
    Utils.convertIngredient ⟨"1", "", "salt"⟩ "metric" = none := by
  refine ⟨?_, ?_, ?_, ?_, by decide, by decide, by decide⟩
  · intro ing ts h
    simp [Utils.convertIngredient, h]
  · intro ing ts h
    simp [Utils.convertIngredient, h]
  · intro u hu
    have hm : ∀ x ∈ Utils.metricUnits,
        (Utils.qlookup Utils.VOLUME_CONVERSIONS x).isSome ∨
        (Utils.qlookup Utils.WEIGHT_CONVERSIONS x).isSome := by decide
    have hi : ∀ x ∈ Utils.imperialUnits,
        (Utils.qlookup Utils.VOLUME_CONVERSIONS x).isSome ∨
        (Utils.qlookup Utils.WEIGHT_CONVERSIONS x).isSome := by decide
    have hvk : ∀ k ∈ Utils.VOLUME_CONVERSIONS.map Prod.fst,
        k ∈ Utils.metricUnits ∨ k ∈ Utils.imperialUnits := by decide
    have hwk : ∀ k ∈ Utils.WEIGHT_CONVERSIONS.map Prod.fst,
        k ∈ Utils.metricUnits ∨ k ∈ Utils.imperialUnits := by decide
    unfold Utils.getUnitSystem
    rw [if_neg hu]
    constructor
    · intro hneu
      by_cases hm1 : Utils.metricUnits.contains (lowerTrim u)
      · simp only [hm1, if_pos] at hneu
        exact absurd hneu (by decide)
      · by_cases hi1 : Utils.imperialUnits.contains (lowerTrim u)
        · simp only [hm1, hi1, if_pos, if_neg, Bool.false_eq_true,
            not_false_eq_true] at hneu
          exact absurd hneu (by decide)
        · constructor
          · cases hv : Utils.qlookup Utils.VOLUME_CONVERSIONS (lowerTrim u) with
            | none => rfl
            | some f =>
              have hk := find_key_mem (m := Utils.VOLUME_CONVERSIONS) hv
              rcases hvk _ hk with hmem | hmem
              · exact absurd (by simpa using hmem) hm1
              · exact absurd (by simpa using hmem) hi1
          · cases hw : Utils.qlookup Utils.WEIGHT_CONVERSIONS (lowerTrim u) with
            | none => rfl
            | some f =>
              have hk := find_key_mem (m := Utils.WEIGHT_CONVERSIONS) hw
              rcases hwk _ hk with hmem | hmem
              · exact absurd (by simpa using hmem) hm1
              · exact absurd (by simpa using hmem) hi1
    · rintro ⟨hv, hw⟩
      by_cases hm1 : Utils.metricUnits.contains (lowerTrim u)
      · have hmem : lowerTrim u ∈ Utils.metricUnits := by simpa using hm1
        rcases hm _ hmem with hs | hs
        · rw [hv] at hs; simp at hs
        · rw [hw] at hs; simp at hs
      · by_cases hi1 : Utils.imperialUnits.contains (lowerTrim u)
        · have hmem : lowerTrim u ∈ Utils.imperialUnits := by simpa using hi1
          rcases hi _ hmem with hs | hs
          · rw [hv] at hs; simp at hs
          · rw [hw] at hs; simp at hs
        · simp only [hm1, hi1, if_neg, Bool.false_eq_true, not_false_eq_true]
  · intro ing ts h
    have hc : Utils.convertToMetric (.str ing.quantity) ing.unit = none := by
      unfold Utils.convertToMetric
      simp [Utils.parseQuantity, h]
    simp [Utils.convertIngredient, hc]

/-- C6 witness: a unit already in the target system at a concrete
ingredient. -/
theorem C6_witness : Utils.convertIngredient ⟨"1", "ml", "milk"⟩ "metric" = none :=
  C6_no_conversion.1 ⟨"1", "ml", "milk"⟩ "metric" (by decide)

namespace RecipeApp

/-- Lowercasing does not move a digit. -/
theorem toLower_of_digit {c : Char} (h : isDigitCh c = true) : c.toLower = c := by
  simp only [isDigitCh, Bool.and_eq_true, decide_eq_true_eq] at h
  have h9 : c.toNat ≤ ('9' : Char).toNat := UInt32.le_def.mp (Char.le_def.mp h.2)
  have h9n : ('9' : Char).toNat = 57 := rfl
  unfold Char.toLower
  rw [if_neg (by omega)]

end RecipeApp

namespace Utils

open RecipeApp

/-- A string matching the integer/decimal shape starts with a digit. -/
theorem decShape?_head {cs : List Char} {v : ℚ} (h : decShape? cs = some v) :
    ∃ c cs', cs = c :: cs' ∧ isDigitCh c = true := by
  cases cs with
  | nil => exact absurd h (by simp [decShape?])
  | cons c cs' =>
    by_cases hd : isDigitCh c
    · exact ⟨c, cs', rfl, hd⟩
    · unfold decShape? at h
      simp only [List.takeWhile_cons, hd] at h
      exact absurd h (by simp)

/-- A string matching the fraction shape starts with a digit. -/
theorem fracShape?_head {cs : List Char} {p : ℕ × ℕ} (h : fracShape? cs = some p) :
    ∃ c cs', cs = c :: cs' ∧ isDigitCh c = true := by
  cases cs with
  | nil => exact absurd h (by simp [fracShape?])
  | cons c cs' =>
    by_cases hd : isDigitCh c
    · exact ⟨c, cs', rfl, hd⟩
    · have hd' : isDigitCh c = false := by simpa using hd
      unfold fracShape? at h
      rw [List.takeWhile_cons, List.dropWhile_cons, hd'] at h
      simp only [Bool.false_eq_true, if_false] at h
      split at h
      · rename_i heq
        rw [if_neg (by simp)] at h
        exact absurd h (by simp)
      · exact absurd h (by simp)

/-- A string matching the mixed-number shape starts with a digit. -/
theorem mixedShape?_head {cs : List Char} {p : ℕ × ℕ × ℕ}
    (h : mixedShape? cs = some p) :
    ∃ c cs', cs = c :: cs' ∧ isDigitCh c = true := by
  cases cs with
  | nil => exact absurd h (by simp [mixedShape?])
  | cons c cs' =>
    by_cases hd : isDigitCh c
    · exact ⟨c, cs', rfl, hd⟩
    · have hd' : isDigitCh c = false := by simpa using hd
      unfold mixedShape? at h
      rw [List.takeWhile_cons, hd'] at h
      simp only [Bool.false_eq_true, if_false] at h
      simp at h

/-- The guards of `parseQuantityStr` cannot fire on a trimmed string
that starts with a digit. -/
theorem digit_head_guards {str : String} {c : Char} {cs' : List Char}
    (hd : str.data = c :: cs') (hc : isDigitCh c = true) :
    ¬(str = "" ∨ jsLower str = "to taste" ∨ jsLower str = "a pinch") := by
  rintro (h | h | h)
  · rw [h] at hd
    exact absurd hd (by simp [String.data])
  · have hdata : (jsLower str).data = ("to taste" : String).data := by rw [h]
    simp only [jsLower, hd, List.map_cons] at hdata
    have hc2 : Char.toLower c = 't' := by
      have hh := congrArg (fun l => l.head?) hdata
      simpa using hh
    rw [toLower_of_digit hc] at hc2
    subst hc2
    exact absurd hc (by decide)
  · have hdata : (jsLower str).data = ("a pinch" : String).data := by rw [h]
    simp only [jsLower, hd, List.map_cons] at hdata
    have hc2 : Char.toLower c = 'a' := by
      have hh := congrArg (fun l => l.head?) hdata
      simpa using hh
    rw [toLower_of_digit hc] at hc2
    subst hc2
    exact absurd hc (by decide)

/-- A fraction-shaped string is not decimal-shaped. -/
theorem decShape?_of_frac {cs : List Char} {p : ℕ × ℕ}
    (h : fracShape? cs = some p) : decShape? cs = none := by
  unfold fracShape? at h
  split at h
  · rename_i rest heq
    simp only [decShape?, heq]
    split_ifs
    · rfl
    · rfl
  · exact absurd h (by simp)

/-- On a mixed-number-shaped string, the character after the leading
digit run is whitespace. -/
theorem mixed_ws_head {cs : List Char} {p : ℕ × ℕ × ℕ}
    (h : mixedShape? cs = some p) :
    ∃ w0 r, cs.dropWhile isDigitCh = w0 :: r ∧ jsWs w0 = true := by
  simp only [mixedShape?] at h
  split at h
  · rename_i hcond
    obtain ⟨hw, hws⟩ := hcond
    cases hrest : cs.dropWhile isDigitCh with
    | nil => rw [hrest] at hws; simp at hws
    | cons w0 r =>
      rw [hrest] at hws
      refine ⟨w0, r, rfl, ?_⟩
      by_cases hjw : jsWs w0
      · exact hjw
      · have hjw' : jsWs w0 = false := by simpa using hjw
        rw [List.takeWhile_cons, hjw'] at hws
        simp at hws
  · exact absurd h (by simp)

/-- A mixed-number-shaped string is neither decimal- nor
fraction-shaped. -/
theorem shapes_of_mixed {cs : List Char} {p : ℕ × ℕ × ℕ}
    (h : mixedShape? cs = some p) :
    decShape? cs = none ∧ fracShape? cs = none := by
  obtain ⟨w0, r, hrest, hw0⟩ := mixed_ws_head h
  have hdot : w0 ≠ '.' := by
    intro hx; rw [hx] at hw0; exact absurd hw0 (by decide)
  have hslash : w0 ≠ '/' := by
    intro hx; rw [hx] at hw0; exact absurd hw0 (by decide)
  constructor
  · simp only [decShape?, hrest]
    split_ifs
    · rfl
    · split
      all_goals
        first
          | rfl
          | (rename_i heq
             exact absurd (List.cons_eq_cons.mp heq).1 hdot)
          | (rename_i heq
             exact absurd heq (by simp))
  · simp only [fracShape?, hrest]
    split
    all_goals
      first
        | rfl
        | (rename_i heq
           exact absurd (List.cons_eq_cons.mp heq).1 hslash)

end Utils

open RecipeApp in
/-- C8: `parseQuantity` returns the numeric value for every string of
integer/decimal shape, fraction shape or mixed-number shape (the three
anchored regexes of the source; fraction values are stated for nonzero
denominators — JS produces Infinity on a zero denominator, which `ℚ`
does not model), and returns null for the empty string, the
placeholders to taste and a pinch, and every string matching none of
the shapes. -/
theorem C8_parseQuantity :
    (∀ (s : String) (v : ℚ), Utils.decShape? (jsTrim s).data = some v →
        Utils.parseQuantityStr s = some v) ∧
    (∀ (s : String) (n d : ℕ), d ≠ 0 →
        Utils.fracShape? (jsTrim s).data = some (n, d) →
        Utils.parseQuantityStr s = some ((n : ℚ) / (d : ℚ))) ∧
    (∀ (s : String) (w n d : ℕ), d ≠ 0 →
        Utils.mixedShape? (jsTrim s).data = some (w, n, d) →
        Utils.parseQuantityStr s = some ((w : ℚ) + (n : ℚ) / (d : ℚ))) ∧
    (∀ s : String,
        Utils.decShape? (jsTrim s).data = none →
        Utils.fracShape? (jsTrim s).data = none →
        Utils.mixedShape? (jsTrim s).data = none →
        Utils.parseQuantityStr s = none) ∧
    (Utils.parseQuantityStr "" = none ∧
     Utils.parseQuantityStr "to taste" = none ∧
     Utils.parseQuantityStr "a pinch" = none ∧
     Utils.parseQuantityStr "2" = some 2 ∧
     Utils.parseQuantityStr "2.5" = some (5 / 2) ∧
     Utils.parseQuantityStr "1/2" = some (1 / 2) ∧
     Utils.parseQuantityStr "1 1/2" = some (3 / 2)) := by
  have hdec : ∀ (s : String) (v : ℚ), Utils.decShape? (jsTrim s).data = some v →
      Utils.parseQuantityStr s = some v := by
    intro s v h
    obtain ⟨c, cs', hcons, hc⟩ := Utils.decShape?_head h
    have hguard := Utils.digit_head_guards hcons hc
    have hs : s ≠ "" := by
      rintro rfl
      rw [show ((jsTrim "").data = ([] : List Char)) from rfl] at h
      rw [show (Utils.decShape? ([] : List Char) = none) from rfl] at h
      exact Option.noConfusion h
    unfold Utils.parseQuantityStr
    rw [if_neg hs]
    simp only [h]
    rw [if_neg hguard]
  have hfrac : ∀ (s : String) (n d : ℕ), d ≠ 0 →
      Utils.fracShape? (jsTrim s).data = some (n, d) →
      Utils.parseQuantityStr s = some ((n : ℚ) / (d : ℚ)) := by
    intro s n d _ h
    obtain ⟨c, cs', hcons, hc⟩ := Utils.fracShape?_head h
    have hguard := Utils.digit_head_guards hcons hc
    have hd := Utils.decShape?_of_frac h
    have hs : s ≠ "" := by
      rintro rfl
      rw [show ((jsTrim "").data = ([] : List Char)) from rfl] at h
      rw [show (Utils.fracShape? ([] : List Char) = none) from rfl] at h
      exact Option.noConfusion h
    unfold Utils.parseQuantityStr
    rw [if_neg hs]
    simp only [hd, h]
    rw [if_neg hguard]
  have hmix : ∀ (s : String) (w n d : ℕ), d ≠ 0 →
      Utils.mixedShape? (jsTrim s).data = some (w, n, d) →
      Utils.parseQuantityStr s = some ((w : ℚ) + (n : ℚ) / (d : ℚ)) := by
    intro s w n d _ h
    obtain ⟨c, cs', hcons, hc⟩ := Utils.mixedShape?_head h
    have hguard := Utils.digit_head_guards hcons hc
    obtain ⟨hd, hf⟩ := Utils.shapes_of_mixed h
    have hs : s ≠ "" := by
      rintro rfl
      rw [show ((jsTrim "").data = ([] : List Char)) from rfl] at h
      rw [show (Utils.mixedShape? ([] : List Char) = none) from rfl] at h
      exact Option.noConfusion h
    unfold Utils.parseQuantityStr
    rw [if_neg hs]
    simp only [hd, hf, h]
    rw [if_neg hguard]
  have hnone : ∀ s : String,
      Utils.decShape? (jsTrim s).data = none →
      Utils.fracShape? (jsTrim s).data = none →
      Utils.mixedShape? (jsTrim s).data = none →
      Utils.parseQuantityStr s = none := by
    intro s h1 h2 h3
    unfold Utils.parseQuantityStr
    by_cases hs : s = ""
    · rw [if_pos hs]
    · rw [if_neg hs]
      simp only [h1, h2, h3]
      split_ifs <;> rfl
  refine ⟨hdec, hfrac, hmix, hnone, rfl, rfl, rfl, ?_, ?_, ?_, ?_⟩
  · rw [hdec "2" ((2 : ℕ) : ℚ) rfl]
    norm_num
  · rw [hdec "2.5" (((2 : ℕ) : ℚ) + ((5 : ℕ) : ℚ) / 10 ^ 1) rfl]
    norm_num
  · rw [hfrac "1/2" 1 2 (by norm_num) rfl]
    norm_num
  · rw [hmix "1 1/2" 1 1 2 (by norm_num) rfl]
    norm_num

/-- C8 witness: the decimal and no-shape clauses applied at concrete
strings. -/
theorem C8_witness :
    Utils.parseQuantityStr "42" = some ((42 : ℕ) : ℚ) ∧
    Utils.parseQuantityStr "salt" = none :=
  ⟨C8_parseQuantity.1 "42" ((42 : ℕ) : ℚ) rfl,
   C8_parseQuantity.2.2.2.1 "salt" rfl rfl rfl⟩

open RecipeApp in
/-- C5: `convertIngredient` converts via the fixed North American
factor table (1 cup = 250 ml, 1 tbsp = 15 ml, 1 tsp = 5 ml,
1 oz = 28.3495 g, 1 lb = 453.592 g) and re-expresses in the best
target-system unit: metric promotes ml to l and g to kg at 1000;
imperial volume picks the largest of cups/tbsp/tsp keeping the
quantity at least 1, else fl oz; imperial weight picks lbs at one
pound-equivalent and above, else oz; in particular 2 cups give 500 ml,
1 tbsp gives 15 ml, 500 ml gives 2 cups, and 250 g gives 8.82 oz. -/
theorem C5_convertIngredient :
    (Utils.convertToMetric (.str "1") "cups" = some (((1 : ℕ) : ℚ) * 250, "ml") ∧
     Utils.convertToMetric (.str "1") "tbsp" = some (((1 : ℕ) : ℚ) * 15, "ml") ∧
     Utils.convertToMetric (.str "1") "tsp" = some (((1 : ℕ) : ℚ) * 5, "ml") ∧
     Utils.convertToMetric (.str "1") "oz" = some (((1 : ℕ) : ℚ) * 28.3495, "g") ∧
     Utils.convertToMetric (.str "1") "lbs" = some (((1 : ℕ) : ℚ) * 453.592, "g")) ∧
    (∀ v : ℚ, Utils.findBestMetricUnit v "ml" =
        if 1000 ≤ v then (v / 1000, "l") else (v, "ml")) ∧
    (∀ v : ℚ, Utils.findBestMetricUnit v "g" =
        if 1000 ≤ v then (v / 1000, "kg") else (v, "g")) ∧
    (∀ v : ℚ, Utils.findBestImperialUnit v "ml" =
        if 1 ≤ v / 250 then (v / 250, "cups")
        else if 1 ≤ v / 15 then (v / 15, "tbsp")
        else if 1 ≤ v / 5 then (v / 5, "tsp")
        else (v / 29.5735, "fl oz")) ∧
    (∀ v : ℚ, Utils.findBestImperialUnit v "g" =
        if 1 ≤ v / 453.592 then (v / 453.592, "lbs")
        else (v / 28.3495, "oz")) ∧
    (Utils.convertIngredient ⟨"2", "cups", "flour"⟩ "metric" = some ("500", "ml") ∧
     Utils.convertIngredient ⟨"1", "tbsp", "sugar"⟩ "metric" = some ("15", "ml") ∧
     Utils.convertIngredient ⟨"500", "ml", "water"⟩ "imperial" = some ("2", "cups") ∧
     Utils.convertIngredient ⟨"250", "g", "sugar"⟩ "imperial" = some ("8.82", "oz")) := by
  refine ⟨⟨rfl, rfl, rfl, rfl, rfl⟩, ?_, ?_, ?_, ?_, ?_, ?_, ?_, ?_⟩
  · intro v
    show (if v ≥ 1000 then ((v / 1000 : ℚ), "l") else (v, "ml")) = _
    exact if_congr ge_iff_le rfl rfl
  · intro v
    show (if v ≥ 1000 then ((v / 1000 : ℚ), "kg") else (v, "g")) = _
    exact if_congr ge_iff_le rfl rfl
  · intro v
    show (if v ≥ 250 then ((v / 250 : ℚ), "cups")
          else if v ≥ 15 then (v / 15, "tbsp")
          else if v ≥ 5 then (v / 5, "tsp")
          else (v / 29.5735, "fl oz")) = _
    refine if_congr ?_ rfl (if_congr ?_ rfl (if_congr ?_ rfl rfl))
    · rw [ge_iff_le, one_le_div (show (0 : ℚ) < 250 by norm_num)]
    · rw [ge_iff_le, one_le_div (show (0 : ℚ) < 15 by norm_num)]
    · rw [ge_iff_le, one_le_div (show (0 : ℚ) < 5 by norm_num)]
  · intro v
    show (if v ≥ 453.592 then ((v / 453.592 : ℚ), "lbs")
          else (v / 28.3495, "oz")) = _
    refine if_congr ?_ rfl rfl
    rw [ge_iff_le, one_le_div (show (0 : ℚ) < 453.592 by norm_num)]
  · have e1 : Utils.convertIngredient ⟨"2", "cups", "flour"⟩ "metric" =
        some (Utils.qToString (Utils.roundToPrecision
                (Utils.findBestMetricUnit (((2 : ℕ) : ℚ) * 250) "ml").1),
              (Utils.findBestMetricUnit (((2 : ℕ) : ℚ) * 250) "ml").2) := rfl
    rw [e1, show (((2 : ℕ) : ℚ) * 250) = 500 by norm_num]
    rw [show Utils.findBestMetricUnit 500 "ml" = (500, "ml") by
      show (if (500 : ℚ) ≥ 1000 then ((500 / 1000 : ℚ), "l") else ((500 : ℚ), "ml")) = _
      rw [if_neg (by norm_num)]]
    dsimp only
    rw [show Utils.roundToPrecision 500 = 500 by
      unfold Utils.roundToPrecision Utils.jsRound; norm_num]
    rw [show Utils.qToString 500 = "500" by
      unfold Utils.qToString
      rw [show ((500 : ℚ) * 100) = 50000 by norm_num]
      norm_num
      rfl]
  · have e2 : Utils.convertIngredient ⟨"1", "tbsp", "sugar"⟩ "metric" =
        some (Utils.qToString (Utils.roundToPrecision
                (Utils.findBestMetricUnit (((1 : ℕ) : ℚ) * 15) "ml").1),
              (Utils.findBestMetricUnit (((1 : ℕ) : ℚ) * 15) "ml").2) := rfl
    rw [e2, show (((1 : ℕ) : ℚ) * 15) = 15 by norm_num]
    rw [show Utils.findBestMetricUnit 15 "ml" = (15, "ml") by
      show (if (15 : ℚ) ≥ 1000 then ((15 / 1000 : ℚ), "l") else ((15 : ℚ), "ml")) = _
      rw [if_neg (by norm_num)]]
    dsimp only
    rw [show Utils.roundToPrecision 15 = 15 by
      unfold Utils.roundToPrecision Utils.jsRound; norm_num]
    rw [show Utils.qToString 15 = "15" by
      unfold Utils.qToString
      rw [show ((15 : ℚ) * 100) = 1500 by norm_num]
      norm_num
      rfl]
  · have e3 : Utils.convertIngredient ⟨"500", "ml", "water"⟩ "imperial" =
        some (Utils.qToString (Utils.roundToPrecision
                (Utils.findBestImperialUnit (((500 : ℕ) : ℚ) * 1) "ml").1),
              (Utils.findBestImperialUnit (((500 : ℕ) : ℚ) * 1) "ml").2) := rfl
    rw [e3, show (((500 : ℕ) : ℚ) * 1) = 500 by norm_num]
    rw [show Utils.findBestImperialUnit 500 "ml" = (2, "cups") by
      show (if (500 : ℚ) ≥ 250 then ((500 / 250 : ℚ), "cups")
            else if (500 : ℚ) ≥ 15 then ((500 / 15 : ℚ), "tbsp")
            else if (500 : ℚ) ≥ 5 then ((500 / 5 : ℚ), "tsp")
            else ((500 / 29.5735 : ℚ), "fl oz")) = _
      rw [if_pos (by norm_num), show ((500 : ℚ) / 250) = 2 by norm_num]]
    dsimp only
    rw [show Utils.roundToPrecision 2 = 2 by
      unfold Utils.roundToPrecision Utils.jsRound; norm_num]
    rw [show Utils.qToString 2 = "2" by
      unfold Utils.qToString
      rw [show ((2 : ℚ) * 100) = 200 by norm_num]
      norm_num
      rfl]
  · have e4 : Utils.convertIngredient ⟨"250", "g", "sugar"⟩ "imperial" =
        some (Utils.qToString (Utils.roundToPrecision
                (Utils.findBestImperialUnit (((250 : ℕ) : ℚ) * 1) "g").1),
              (Utils.findBestImperialUnit (((250 : ℕ) : ℚ) * 1) "g").2) := rfl
    rw [e4, show (((250 : ℕ) : ℚ) * 1) = 250 by norm_num]
    rw [show Utils.findBestImperialUnit 250 "g" = (250 / 28.3495, "oz") by
      show (if (250 : ℚ) ≥ 453.592 then ((250 / 453.592 : ℚ), "lbs")
            else ((250 / 28.3495 : ℚ), "oz")) = _
      rw [if_neg (by norm_num)]]
    dsimp only
    rw [show Utils.roundToPrecision (250 / 28.3495) = 441 / 50 by
      unfold Utils.roundToPrecision Utils.jsRound
      norm_num
      rw [abs_of_pos (by norm_num : (0 : ℚ) < 9 / 50)]
      norm_num]
    rw [show Utils.qToString (441 / 50) = "8.82" by
      unfold Utils.qToString
      rw [show ((441 / 50 : ℚ) * 100) = 882 by norm_num]
      norm_num
      rfl]

namespace Utils

open RecipeApp

/-- A decimal-shaped value is non-negative. -/
theorem decShape?_nonneg {cs : List Char} {v : ℚ}
    (h : decShape? cs = some v) : 0 ≤ v := by
  unfold decShape? at h
  dsimp only at h
  split_ifs at h
  split at h
  · injection h with h'
    rw [← h']
    positivity
  · split_ifs at h
    injection h with h'
    rw [← h']
    positivity
  · exact absurd h (by simp)

/-- Every quantity `parseQuantity` accepts from a string is
non-negative (the shapes contain no sign character). -/
theorem parseQuantityStr_nonneg {s : String} {q : ℚ}
    (h : parseQuantityStr s = some q) : 0 ≤ q := by
  unfold parseQuantityStr at h
  dsimp only at h
  split_ifs at h
  split at h
  · rename_i v hv
    injection h with h'
    rw [← h']
    exact decShape?_nonneg hv
  · split at h
    · rename_i p hp
      injection h with h'
      rw [← h']
      positivity
    · split at h
      · rename_i p hp
        injection h with h'
        rw [← h']
        positivity
      · exact absurd h (by simp)

/-- A successful table lookup returns one of the table's pairs. -/
theorem qlookup_pair_mem {m : List (String × ℚ)} {k : String} {f : ℚ}
    (h : qlookup m k = some f) : ∃ p ∈ m, p.2 = f := by
  unfold qlookup at h
  cases hf : m.find? (fun p => p.1 == k) with
  | none => rw [hf] at h; exact absurd h (by simp)
  | some p =>
    rw [hf] at h
    exact ⟨p, List.mem_of_find?_eq_some hf, by simpa using h⟩

/-- Every volume factor is positive. -/
theorem volume_factor_pos : ∀ p ∈ VOLUME_CONVERSIONS, (0 : ℚ) < p.2 := by
  intro p hp
  fin_cases hp <;> norm_num

/-- Every weight factor is positive. -/
theorem weight_factor_pos : ∀ p ∈ WEIGHT_CONVERSIONS, (0 : ℚ) < p.2 := by
  intro p hp
  fin_cases hp <;> norm_num

/-- A string-quantity metric-base conversion yields a non-negative
value. -/
theorem convertToMetric_str_nonneg {q u : String} {v : ℚ} {b : String}
    (h : convertToMetric (.str q) u = some (v, b)) : 0 ≤ v := by
  unfold convertToMetric at h
  dsimp only at h
  split at h
  · exact absurd h (by simp)
  · rename_i pq hpq
    have hq0 : 0 ≤ pq := parseQuantityStr_nonneg hpq
    generalize (if u = "" then "" else lowerTrim u) = n at h
    split_ifs at h
    · split at h
      · rename_i f hf
        injection h with h'
        obtain ⟨p, hpm, hp2⟩ := qlookup_pair_mem hf
        have hfpos : 0 < f := hp2 ▸ volume_factor_pos p hpm
        have hv : pq * f = v := congrArg Prod.fst h'
        rw [← hv]
        exact mul_nonneg hq0 hfpos.le
      · exact absurd h (by simp)
    · split at h
      · rename_i f hf
        injection h with h'
        obtain ⟨p, hpm, hp2⟩ := qlookup_pair_mem hf
        have hfpos : 0 < f := hp2 ▸ weight_factor_pos p hpm
        have hv : pq * f = v := congrArg Prod.fst h'
        rw [← hv]
        exact mul_nonneg hq0 hfpos.le
      · exact absurd h (by simp)

/-- Picking the best metric display unit keeps the quantity
non-negative. -/
theorem findBestMetricUnit_nonneg {v : ℚ} (b : String) (hv : 0 ≤ v) :
    0 ≤ (findBestMetricUnit v b).1 := by
  unfold findBestMetricUnit
  split_ifs <;> dsimp only <;> positivity

/-- Picking the best imperial display unit keeps the quantity
non-negative. -/
theorem findBestImperialUnit_nonneg {v : ℚ} (b : String) (hv : 0 ≤ v) :
    0 ≤ (findBestImperialUnit v b).1 := by
  unfold findBestImperialUnit
  split_ifs <;> dsimp only <;> positivity

end Utils

open RecipeApp in
/-- C7 counterexample: converting 4 ml to imperial yields a value
strictly between 0 and 1 (4/29.5735 fl oz); the code displays it
rounded to 1 decimal place, "0.1", while the claimed 2-decimal rule
would display "0.14". -/
theorem C7_counterexample :
    Utils.convertIngredient ⟨"4", "ml", "water"⟩ "imperial" = some ("0.1", "fl oz") ∧
    Utils.qToString (Utils.specRound (4 / 29.5735)) = "0.14" ∧
    ("0.1" : String) ≠ "0.14" := by
  refine ⟨?_, ?_, by decide⟩
  · have e : Utils.convertIngredient ⟨"4", "ml", "water"⟩ "imperial" =
        some (Utils.qToString (Utils.roundToPrecision
                (Utils.findBestImperialUnit (((4 : ℕ) : ℚ) * 1) "ml").1),
              (Utils.findBestImperialUnit (((4 : ℕ) : ℚ) * 1) "ml").2) := rfl
    rw [e, show (((4 : ℕ) : ℚ) * 1) = 4 by norm_num]
    rw [show Utils.findBestImperialUnit 4 "ml" = (4 / 29.5735, "fl oz") by
      show (if (4 : ℚ) ≥ 250 then ((4 / 250 : ℚ), "cups")
            else if (4 : ℚ) ≥ 15 then ((4 / 15 : ℚ), "tbsp")
            else if (4 : ℚ) ≥ 5 then ((4 / 5 : ℚ), "tsp")
            else ((4 / 29.5735 : ℚ), "fl oz")) = _
      rw [if_neg (by norm_num), if_neg (by norm_num), if_neg (by norm_num)]]
    dsimp only
    rw [show Utils.roundToPrecision (4 / 29.5735) = 1 / 10 by
      unfold Utils.roundToPrecision Utils.jsRound
      norm_num]
    rw [show Utils.qToString (1 / 10) = "0.1" by
      unfold Utils.qToString
      rw [show ((1 / 10 : ℚ) * 100) = 10 by norm_num]
      norm_num
      rfl]
  · rw [show Utils.specRound (4 / 29.5735) = 7 / 50 by
      unfold Utils.specRound Utils.jsRound
      norm_num
      rw [abs_of_pos (by norm_num : (0 : ℚ) < 7 / 50)]
      norm_num]
    unfold Utils.qToString
    rw [show ((7 / 50 : ℚ) * 100) = 14 by norm_num]
    norm_num
    rfl

open RecipeApp in
/-- C7 (amended): a successful conversion displays
`roundToPrecision` of a non-negative converted value; that rounding
agrees with the claimed 2-decimal-plus-snap rule whenever the 2-decimal
rounding is not strictly between 0 and 1, but a value whose 2-decimal
rounding lies strictly between 0 and 1 is instead rounded to 1 decimal
place. -/
theorem C7_rounding :
    (∀ v : ℚ, ¬((Utils.jsRound (v * 100) : ℚ) / 100 < 1 ∧
                (Utils.jsRound (v * 100) : ℚ) / 100 > 0) →
        Utils.roundToPrecision v = Utils.specRound v) ∧
    (∀ v : ℚ, (Utils.jsRound (v * 100) : ℚ) / 100 < 1 →
        (Utils.jsRound (v * 100) : ℚ) / 100 > 0 →
        Utils.roundToPrecision v = (Utils.jsRound (v * 10) : ℚ) / 10) ∧
    (∀ (ing : Ingredient) (ts q u : String),
        Utils.convertIngredient ing ts = some (q, u) →
        ∃ v : ℚ, 0 ≤ v ∧ q = Utils.qToString (Utils.roundToPrecision v)) := by
  refine ⟨?_, ?_, ?_⟩
  · intro v h
    unfold Utils.roundToPrecision Utils.specRound
    dsimp only
    rw [if_neg h]
  · intro v h1 h2
    unfold Utils.roundToPrecision
    dsimp only
    rw [if_pos ⟨h1, h2⟩]
  · intro ing ts q u h
    unfold Utils.convertIngredient at h
    dsimp only at h
    split_ifs at h
    · split at h
      · exact absurd h (by simp)
      · rename_i value baseUnit hp
        injection h with h'
        have hq : Utils.qToString (Utils.roundToPrecision
            (Utils.findBestMetricUnit value baseUnit).1) = q := congrArg Prod.fst h'
        refine ⟨(Utils.findBestMetricUnit value baseUnit).1, ?_, hq.symm⟩
        exact Utils.findBestMetricUnit_nonneg baseUnit
          (Utils.convertToMetric_str_nonneg (q := ing.quantity) (u := ing.unit)
            (by rw [hp]))
    · split at h
      · exact absurd h (by simp)
      · rename_i value baseUnit hp
        injection h with h'
        have hq : Utils.qToString (Utils.roundToPrecision
            (Utils.findBestImperialUnit value baseUnit).1) = q := congrArg Prod.fst h'
        refine ⟨(Utils.findBestImperialUnit value baseUnit).1, ?_, hq.symm⟩
        exact Utils.findBestImperialUnit_nonneg baseUnit
          (Utils.convertToMetric_str_nonneg (q := ing.quantity) (u := ing.unit)
            (by rw [hp]))
    · split at h <;> exact absurd h (by simp)

/-- C7 witness: the two rounding regimes and the display link applied
at concrete values. -/
theorem C7_witness :
    Utils.roundToPrecision 500 = Utils.specRound 500 ∧
    Utils.roundToPrecision (4 / 29.5735) =
      (Utils.jsRound ((4 / 29.5735) * 10) : ℚ) / 10 ∧
    (∃ v : ℚ, 0 ≤ v ∧
      "500" = Utils.qToString (Utils.roundToPrecision v)) := by
  refine ⟨?_, ?_, ?_⟩
  · refine C7_rounding.1 500 ?_
    rw [show Utils.jsRound ((500 : ℚ) * 100) = 50000 by
      unfold Utils.jsRound; norm_num]
    norm_num
  · refine C7_rounding.2.1 (4 / 29.5735) ?_ ?_ <;>
      rw [show Utils.jsRound ((4 / 29.5735 : ℚ) * 100) = 14 by
        unfold Utils.jsRound; norm_num] <;>
      norm_num
  · refine C7_rounding.2.2 ⟨"2", "cups", "flour"⟩ "metric" "500" "ml" ?_
    have e : Utils.convertIngredient ⟨"2", "cups", "flour"⟩ "metric" =
        some (Utils.qToString (Utils.roundToPrecision
                (Utils.findBestMetricUnit (((2 : ℕ) : ℚ) * 250) "ml").1),
              (Utils.findBestMetricUnit (((2 : ℕ) : ℚ) * 250) "ml").2) := rfl
    rw [e, show (((2 : ℕ) : ℚ) * 250) = 500 by norm_num]
    rw [show Utils.findBestMetricUnit 500 "ml" = (500, "ml") by
      show (if (500 : ℚ) ≥ 1000 then ((500 / 1000 : ℚ), "l") else ((500 : ℚ), "ml")) = _
      rw [if_neg (by norm_num)]]
    dsimp only
    rw [show Utils.roundToPrecision 500 = 500 by
      unfold Utils.roundToPrecision Utils.jsRound; norm_num]
    rw [show Utils.qToString 500 = "500" by
      unfold Utils.qToString
      rw [show ((500 : ℚ) * 100) = 50000 by norm_num]
      norm_num
      rfl]

open RecipeApp in
/-- C1: the JSON-LD import path drops the caller-supplied URL — the
extractor resolves sourceUrl as `recipe.url || ''` and `parseJsonLd`
receives no URL at all, so importing the §8 example document (no url
field) emits sourceUrl "" instead of the import URL, while a document
carrying its own url keeps it; the ingredient mapping is as claimed. -/
theorem C1_sourceUrl_dropped :
    (Parser.parseJsonLd [some sampleJsonLd]).map
        (fun r => (r.sourceUrl, r.ingredients)) =
      some ("", [⟨"2", "cups", "flour"⟩]) ∧
    ("" : String) ≠ "https://example.com/r" ∧
    (Parser.parseJsonLd [some sampleJsonLdWithUrl]).map (fun r => r.sourceUrl) =
      some "https://original.example/page" := by
  refine ⟨by decide, by decide, by decide⟩

/-- C2 counterexample: `parseRecipeFromText` throws on the empty string
and on whitespace-only text, so it does not return a Recipe record for
every input. -/
theorem C2_counterexample :
    TextParser.parseRecipeFromText "" =
      Except.error "Invalid text provided for parsing" ∧
    TextParser.parseRecipeFromText " \n " =
      Except.error "No text content to parse" :=
  ⟨rfl, rfl⟩

open RecipeApp in
/-- C2 (amended): for every input whose trimmed text is non-empty the
OCR parser never throws — it returns a record whose title is
`extractTitle` of the trimmed text, degrading to the literal fallback
Untitled Recipe when every line is skipped by the title heuristics
(rejecting such a record is the orchestrator's job); empty or
whitespace-only input throws. -/
theorem C2_parser_total (text : String) (h : jsTrim text ≠ "") :
    ∃ r : ImportRecipe,
      TextParser.parseRecipeFromText text = .ok r ∧
      r.title = TextParser.extractTitle (jsTrim text) ∧
      ((∀ l ∈ ((jsSplit (jsTrim text) '\n').map jsTrim).filter (fun l => l ≠ ""),
          TextParser.titleSkip l = true) →
        r.title = "Untitled Recipe") := by
  have hne : text ≠ "" := by
    rintro rfl; exact h rfl
  unfold TextParser.parseRecipeFromText
  rw [if_neg hne]
  dsimp only
  rw [if_neg h]
  refine ⟨_, rfl, rfl, ?_⟩
  intro hall
  have hfind : (((jsSplit (jsTrim text) '\n').map jsTrim).filter
      (fun l => l ≠ "")).find? (fun line => !TextParser.titleSkip line) = none := by
    rw [List.find?_eq_none]
    intro l hl
    simp [hall l hl]
  show TextParser.extractTitle (jsTrim text) = "Untitled Recipe"
  unfold TextParser.extractTitle
  dsimp only
  rw [hfind]

/-- C2 witness: a non-empty text whose lines are all title-skipped
parses to a record with the fallback title. -/
theorem C2_witness :
    ∃ r : RecipeApp.ImportRecipe,
      TextParser.parseRecipeFromText "@@@\n12 34" = .ok r ∧
      r.title = TextParser.extractTitle (RecipeApp.jsTrim "@@@\n12 34") ∧
      ((∀ l ∈ ((RecipeApp.jsSplit (RecipeApp.jsTrim "@@@\n12 34") '\n').map
            RecipeApp.jsTrim).filter (fun l => l ≠ ""),
          TextParser.titleSkip l = true) →
        r.title = "Untitled Recipe") :=
  C2_parser_total "@@@\n12 34" (by decide)

open RecipeApp in
/-- C3 counterexample: a JSON-LD Recipe with prepTime PT15M and no
totalTime yields additionalTime -15, a negative value. -/
theorem C3_counterexample :
    (Parser.extractRecipeFromJsonLd inconsistentTimesDoc).map
        (fun r => r.additionalTime) = some (-15) ∧ (-15 : ℤ) < 0 :=
  ⟨by decide, by decide⟩

open RecipeApp in
/-- C3 (amended): prepTime, cookTime and (OCR) servings are
non-negative integers by construction, HTML-fallback records carry all
time and servings fields 0, and the OCR parser always emits
additionalTime 0; but the JSON-LD extractor derives additionalTime as
parseTime(totalTime) − prepTime − cookTime, which is negative whenever
the parsed totalTime is smaller than prepTime + cookTime (in
particular when totalTime is absent); a numeric recipeYield passes
through unchanged, so JSON-LD servings is integral and non-negative
only for non-numeric (or non-negative numeric) yields. -/
theorem C3_time_fields :
    (∀ (data : Json) (r : ImportRecipe),
        Parser.extractRecipeFromJsonLd data = some r →
        ∃ t : ℕ, r.additionalTime = (t : ℤ) - (r.prepTime : ℤ) - (r.cookTime : ℤ) ∧
          ((r.prepTime : ℤ) + (r.cookTime : ℤ) ≤ (t : ℤ) → 0 ≤ r.additionalTime) ∧
          ((t : ℤ) < (r.prepTime : ℤ) + (r.cookTime : ℤ) → r.additionalTime < 0)) ∧
    (∀ (f : Parser.HtmlFields) (u : String),
        (Parser.parseHtml f u).prepTime = 0 ∧ (Parser.parseHtml f u).cookTime = 0 ∧
        (Parser.parseHtml f u).additionalTime = 0 ∧ (Parser.parseHtml f u).servings = 0) ∧
    (∀ (text : String) (r : ImportRecipe),
        TextParser.parseRecipeFromText text = .ok r →
        r.additionalTime = 0 ∧ ∃ n : ℕ, r.servings = (n : ℚ)) ∧
    (∀ j : Option Json, (∀ q : ℚ, j ≠ some (.num q)) →
        ∃ n : ℕ, Parser.parseServings j = (n : ℚ)) ∧
    (∀ q : ℚ, 0 ≤ q → 0 ≤ Parser.parseServings (some (.num q))) := by
  refine ⟨?_, ?_, ?_, ?_, ?_⟩
  · intro data r h
    unfold Parser.extractRecipeFromJsonLd at h
    dsimp only at h
    split at h
    · exact absurd h (by simp)
    · rename_i recipe heq
      injection h with h'
      subst h'
      refine ⟨Parser.parseTime (getField recipe "totalTime"), rfl, ?_, ?_⟩
      · show (Parser.parseTime (getField recipe "prepTime") : ℤ) +
            (Parser.parseTime (getField recipe "cookTime") : ℤ) ≤
            (Parser.parseTime (getField recipe "totalTime") : ℤ) →
          0 ≤ (Parser.parseTime (getField recipe "totalTime") : ℤ) -
            (Parser.parseTime (getField recipe "prepTime") : ℤ) -
            (Parser.parseTime (getField recipe "cookTime") : ℤ)
        omega
      · show (Parser.parseTime (getField recipe "totalTime") : ℤ) <
            (Parser.parseTime (getField recipe "prepTime") : ℤ) +
            (Parser.parseTime (getField recipe "cookTime") : ℤ) →
          (Parser.parseTime (getField recipe "totalTime") : ℤ) -
            (Parser.parseTime (getField recipe "prepTime") : ℤ) -
            (Parser.parseTime (getField recipe "cookTime") : ℤ) < 0
        omega
  · intro f u
    exact ⟨rfl, rfl, rfl, rfl⟩
  · intro text r h
    unfold TextParser.parseRecipeFromText at h
    dsimp only at h
    split_ifs at h
    injection h with h'
    subst h'
    exact ⟨rfl, TextParser.extractServings (jsTrim text), rfl⟩
  · intro j hnum
    match j with
    | none => exact ⟨0, by simp [Parser.parseServings]⟩
    | some .nul => exact ⟨0, by simp [Parser.parseServings, Json.truthy]⟩
    | some (.bool b) =>
      cases b
      · exact ⟨0, by simp [Parser.parseServings, Json.truthy]⟩
      · cases hr : Parser.firstDigitRun (jsonToStr (.bool true)).data with
        | none => exact ⟨0, by simp [Parser.parseServings, Json.truthy, hr]⟩
        | some n => exact ⟨n, by simp [Parser.parseServings, Json.truthy, hr]⟩
    | some (.num q) => exact absurd rfl (hnum q)
    | some (.str s) =>
      by_cases hs : s = ""
      · subst hs
        exact ⟨0, by simp [Parser.parseServings, Json.truthy]⟩
      · cases hr : Parser.firstDigitRun (jsonToStr (.str s)).data with
        | none =>
          refine ⟨0, ?_⟩
          simp [Parser.parseServings, Json.truthy, hs, hr]
        | some n =>
          refine ⟨n, ?_⟩
          simp [Parser.parseServings, Json.truthy, hs, hr]
    | some (.arr xs) =>
      cases hr : Parser.firstDigitRun (jsonToStr (.arr xs)).data with
      | none => exact ⟨0, by simp [Parser.parseServings, Json.truthy, hr]⟩
      | some n => exact ⟨n, by simp [Parser.parseServings, Json.truthy, hr]⟩
    | some (.obj fs) =>
      cases hr : Parser.firstDigitRun (jsonToStr (.obj fs)).data with
      | none => exact ⟨0, by simp [Parser.parseServings, Json.truthy, hr]⟩
      | some n => exact ⟨n, by simp [Parser.parseServings, Json.truthy, hr]⟩
  · intro q hq
    unfold Parser.parseServings
    by_cases h0 : q = 0
    · subst h0
      simp [Json.truthy]
    · simpa [Json.truthy, h0] using hq

open RecipeApp in
/-- C3 witness: the JSON-LD derivation clause applied at the
inconsistent-times document. -/
theorem C3_witness :
    ∃ t : ℕ, inconsistentTimesRec.additionalTime =
        (t : ℤ) - (inconsistentTimesRec.prepTime : ℤ) -
          (inconsistentTimesRec.cookTime : ℤ) ∧
      ((inconsistentTimesRec.prepTime : ℤ) + (inconsistentTimesRec.cookTime : ℤ) ≤ (t : ℤ) →
        0 ≤ inconsistentTimesRec.additionalTime) ∧
      ((t : ℤ) < (inconsistentTimesRec.prepTime : ℤ) + (inconsistentTimesRec.cookTime : ℤ) →
        inconsistentTimesRec.additionalTime < 0) :=
  C3_time_fields.1 RecipeApp.inconsistentTimesDoc inconsistentTimesRec (by decide)

namespace TextParser

open RecipeApp

/-- Once the instruction loop reaches a Notes/Tips/Nutrition/Source
heading, the lines after it are irrelevant: collection terminates. -/
theorem instructionLoop_notes {h0 : String}
    (hh : isNotesHeader h0 = true) (hne : h0 ≠ "") :
    ∀ (ls ys zs : List String) (cur : String) (le : Bool),
      instructionLoop (ls ++ h0 :: ys) cur le =
      instructionLoop (ls ++ h0 :: zs) cur le := by
  intro ls
  induction ls with
  | nil =>
    intro ys zs cur le
    simp only [List.nil_append]
    unfold instructionLoop
    rw [if_neg hne, if_pos hh, if_neg hne, if_pos hh]
  | cons l ls ih =>
    intro ys zs cur le
    simp only [List.cons_append]
    unfold instructionLoop
    dsimp only
    split_ifs <;> first | rfl | rw [ih ys zs]

/-- Two consecutive non-empty, marker-free, header-free lines are
joined space-separated into one step. -/
theorem instructionLoop_joins {l1 l2 : String}
    (h1 : l1 ≠ "") (h2 : l2 ≠ "")
    (hn1 : isNotesHeader l1 = false) (hn2 : isNotesHeader l2 = false)
    (hb1 : hasBulletMarker l1.data = false) (hb2 : hasBulletMarker l2.data = false)
    (hm1 : hasNumberMarker l1.data = false) (hm2 : hasNumberMarker l2.data = false)
    (hc1 : cleanMarkers l1 = l1) (hc2 : cleanMarkers l2 = l2)
    (ht : jsTrim (l1 ++ " " ++ l2) = l1 ++ " " ++ l2) :
    parseInstructionLines [l1, l2] = [l1 ++ " " ++ l2] := by
  have hne : l1 ++ " " ++ l2 ≠ "" := by
    intro hx
    have hdata := congrArg String.data hx
    simp at hdata
  simp only [parseInstructionLines, instructionLoop, h1, h2, hn1, hn2, hb1, hb2,
    hm1, hm2, hc1, hc2, ht, hne, Bool.false_eq_true, if_false, Bool.or_self,
    false_and, and_false, ne_eq, not_false_eq_true, if_true,
    show jsTrim "" = "" from rfl, not_true_eq_false, if_neg]

end TextParser

open RecipeApp in
/-- C10: on the §8 example text the OCR parser yields exactly one
ingredient (2 cups flour, marker stripped) and exactly the two steps
Mix well. and Bake. (markers stripped, blank line starting a new
step); in general a Notes/Tips/Nutrition/Source heading terminates
instruction collection (everything after it is ignored), and
consecutive non-empty unmarked lines are joined space-separated into
the same step. -/
theorem C10_instruction_grouping :
    (∃ r : ImportRecipe,
        TextParser.parseRecipeFromText sampleOcrText = .ok r ∧
        r.ingredients = [⟨"2", "cups", "flour"⟩] ∧
        r.instructions = ["Mix well.", "Bake."]) ∧
    TextParser.extractIngredients sampleOcrText = [⟨"2", "cups", "flour"⟩] ∧
    TextParser.extractInstructions sampleOcrText = ["Mix well.", "Bake."] ∧
    (∀ h0 : String, TextParser.isNotesHeader h0 = true → h0 ≠ "" →
      ∀ (ls ys zs : List String) (cur : String) (le : Bool),
        TextParser.instructionLoop (ls ++ h0 :: ys) cur le =
        TextParser.instructionLoop (ls ++ h0 :: zs) cur le) ∧
    (∀ l1 l2 : String, l1 ≠ "" → l2 ≠ "" →
        TextParser.isNotesHeader l1 = false → TextParser.isNotesHeader l2 = false →
        TextParser.hasBulletMarker l1.data = false →
        TextParser.hasBulletMarker l2.data = false →
        TextParser.hasNumberMarker l1.data = false →
        TextParser.hasNumberMarker l2.data = false →
        TextParser.cleanMarkers l1 = l1 → TextParser.cleanMarkers l2 = l2 →
        jsTrim (l1 ++ " " ++ l2) = l1 ++ " " ++ l2 →
        TextParser.parseInstructionLines [l1, l2] = [l1 ++ " " ++ l2]) ∧
    TextParser.parseInstructionLines
        ["Step one", "continued here.", "", "2. Bake."] =
      ["Step one continued here.", "Bake."] := by
  refine ⟨⟨_, rfl, by decide, by decide⟩, by decide, by decide, ?_, ?_, by decide⟩
  · intro h0 hh hne ls ys zs cur le
    exact TextParser.instructionLoop_notes hh hne ls ys zs cur le
  · intro l1 l2 h1 h2 hn1 hn2 hb1 hb2 hm1 hm2 hc1 hc2 ht
    exact TextParser.instructionLoop_joins h1 h2 hn1 hn2 hb1 hb2 hm1 hm2 hc1 hc2 ht

open RecipeApp in
/-- C10 witness: the termination and joining clauses applied at
concrete lines. -/
theorem C10_witness :
    TextParser.instructionLoop (["Bake."] ++ "Notes:" :: ["keeps well"]) "" false =
      TextParser.instructionLoop (["Bake."] ++ "Notes:" :: ["serve warm"]) "" false ∧
    TextParser.parseInstructionLines ["Mix the dry ingredients", "until combined."] =
      ["Mix the dry ingredients" ++ " " ++ "until combined."] :=
  ⟨C10_instruction_grouping.2.2.2.1 "Notes:" (by decide) (by decide)
      ["Bake."] ["keeps well"] ["serve warm"] "" false,
   C10_instruction_grouping.2.2.2.2.1 "Mix the dry ingredients" "until combined."
      (by decide) (by decide) (by decide) (by decide) (by decide) (by decide)
      (by decide) (by decide) (by decide) (by decide) (by decide)⟩
